import Mathlib

/-!
Verification of the `syn-net/middleware` derived-resource cloning core.

This file shallowly embeds the relevant parts of
`src/middlewared/middlewared/plugins/vm/clone.py` and
`src/middlewared/middlewared/plugins/zfs_/dataset.py`.

Python strings are modelled as `List Char`; middleware calls are modelled
through an explicit oracle structure (`MW`), and each embedded operation
returns the sequence of mutating calls it issued (its trace) together with
its result, so that ordering and frame properties can be stated.
-/

/-- Names and string values (Python `str`) are modelled as lists of characters. -/
abbrev Str := List Char

/-- The decimal digit character for `d` (`d < 10`); mirrors Python string
formatting of a single digit. -/
def digitChar : Nat → Char
  | 0 => '0' | 1 => '1' | 2 => '2' | 3 => '3' | 4 => '4'
  | 5 => '5' | 6 => '6' | 7 => '7' | 8 => '8' | _ => '9'

/-- Fuel-driven most-significant-first decimal digits of `n` (empty for 0). -/
def natCharsAux : Nat → Nat → List Char
  | 0, _ => []
  | fuel+1, n => if n = 0 then [] else natCharsAux fuel (n / 10) ++ [digitChar (n % 10)]

/-- Decimal rendering of a natural number, as Python `str(i)` / an f-string
interpolation of an `int` renders it. -/
def natChars (n : Nat) : List Char :=
  if n = 0 then ['0'] else natCharsAux n n

/-- Reads a digit string back into a number (left inverse of `natChars`). -/
def decodeDigits (l : List Char) : Nat :=
  l.foldl (fun a c => a * 10 + (c.toNat - 48)) 0

/-- `ZVOL_CLONE_SUFFIX = '_clone'` (clone.py line 10). -/
def ZVOL_CLONE_SUFFIX : Str := "_clone".data

/-- Whether `t` matches the tail part `_clone\d+` of `ZVOL_CLONE_RE`
(clone.py line 11): it starts with `_clone` followed by one or more digits
running to the end of the string. -/
def tailMatches (t : List Char) : Bool :=
  decide (t.take 6 = ZVOL_CLONE_SUFFIX) && decide (t.drop 6 ≠ []) && (t.drop 6).all Char.isDigit

/-- The group `\1` captured by `ZVOL_CLONE_RE = ^(.*)_clone\d+$` on a match,
`none` when the regex does not match.  The Python `(.*)` is greedy, so the
captured prefix is the longest one whose remainder matches `_clone\d+$`;
accordingly a match found further right (inside `rest`) is preferred. -/
def extractPrefixL : List Char → Option (List Char)
  | [] => none
  | c :: rest =>
    match extractPrefixL rest with
    | some p => some (c :: p)
    | none => if tailMatches (c :: rest) then some [] else none

/-- One re-suffixing step of the zvol name-search loops (clone.py lines 40-44
and 56-60): if the current candidate matches `ZVOL_CLONE_RE` the numeric
suffix is replaced by `_clone{i}` via `ZVOL_CLONE_RE.sub`, otherwise the
candidate restarts from the base name as `{name}_clone{i}`. -/
def cloneSub (name cur : Str) (i : Nat) : Str :=
  match extractPrefixL cur with
  | some p => p ++ ZVOL_CLONE_SUFFIX ++ natChars i
  | none => name ++ ZVOL_CLONE_SUFFIX ++ natChars i

/-- The common shape of the three `while True` name-search loops: test the
current candidate, and while it is taken move to the next candidate
(`step cur i`) with an incremented counter.  The source loops have no bound;
the embedding carries explicit fuel, and the termination theorems show the
fuel chosen at the call sites is always sufficient. -/
def allocLoop (test : Str → Bool) (step : Str → Nat → Str) :
    Nat → Str → Nat → Option Str
  | 0, _, _ => none
  | fuel+1, cur, i => if test cur then allocLoop test step fuel (step cur i) (i + 1) else some cur

/-- The sequence of candidate states the loop visits, starting from state
`c` with counter `i`. -/
def allocSeq (step : Str → Nat → Str) : Str → Nat → Nat → Str
  | c, _, 0 => c
  | c, i, k+1 => allocSeq step (step c i) (i + 1) k

/-- `VMService.__next_clone_name` (clone.py lines 16-29): starting from index
0, try `{name}_clone{index}` against the vm names returned by the query until
a free one is found.  The first candidate is tested with counter 0 and the
counter of the next candidate to build is 1. -/
def next_clone_name (vm_names : List Str) (name : Str) : Option Str :=
  allocLoop (fun c => decide (c ∈ vm_names))
    (fun _ i => name ++ ZVOL_CLONE_SUFFIX ++ natChars i)
    (vm_names.length + 2) (name ++ ZVOL_CLONE_SUFFIX ++ natChars 0) 1

/-- The snapshot-name search of `VMService.__clone_zvol` (clone.py lines
35-46): starting from `snapshot_name = name`, while `{zvol}@{snapshot_name}`
exists among the snapshot ids, re-suffix via `cloneSub`. -/
def snapshot_name_alloc (snapIds : List Str) (zvol name : Str) : Option Str :=
  allocLoop (fun c => decide ((zvol ++ '@' :: c) ∈ snapIds)) (cloneSub name)
    (snapIds.length + 2) name 0

/-- The clone-target search of `VMService.__clone_zvol` (clone.py lines
51-62): starting from `clone_suffix = name`, while `{zvol}_{clone_suffix}`
exists among the dataset ids, re-suffix via `cloneSub`.  Returns the final
`clone_suffix`; the destination is `{zvol}_{suffix}`. -/
def clone_dst_alloc (dsIds : List Str) (zvol name : Str) : Option Str :=
  allocLoop (fun c => decide ((zvol ++ '_' :: c) ∈ dsIds)) (cloneSub name)
    (dsIds.length + 2) name 0

/-- Python `s.split(sep)` for a single-character separator. -/
def splitOn (sep : Char) : List Char → List (List Char)
  | [] => [[]]
  | c :: rest =>
    let r := splitOn sep rest
    if c = sep then [] :: r
    else
      match r with
      | [] => [[c]]
      | h :: t => (c :: h) :: t

/-- The tuple unpacking `dataset, snap = i.split('@')` (clone.py line 128):
succeeds exactly when the split yields two parts, and raises (`none`)
otherwise. -/
def splitPair (s : Str) : Option (Str × Str) :=
  match splitOn '@' s with
  | [d, n] => some (d, n)
  | _ => none

/-- Python `s.strip()`: leading and trailing whitespace removed. -/
def pyStrip (s : Str) : Str :=
  ((s.dropWhile Char.isWhitespace).reverse.dropWhile Char.isWhitespace).reverse

/-- Python `pat in s` substring containment. -/
def isSubstring (pat s : List Char) : Bool :=
  (List.range (s.length + 1)).any (fun i => pat.isPrefixOf (s.drop i))

/-! ## Data model of the VM clone saga (clone.py) -/

/-- Device types (`dtype`). -/
inductive DType
  | NIC | DISPLAY | DISK | RAW
deriving DecidableEq

/-- The device attribute map; only the keys the clone saga touches are
modelled, each as an `Option` so that Python `'k' in item['attributes']`
is `≠ none`. -/
structure Attrs where
  mac : Option Str
  port : Option Nat
  web_port : Option Nat
  path : Option Str
deriving DecidableEq

/-- A VM device record.  `id` and `vm` are `Option` so that
`item.pop('id', None)` and `item['vm'] = new_vm['id']` can be modelled. -/
structure Device where
  id : Option Nat
  vm : Option Nat
  dtype : DType
  attributes : Attrs
deriving DecidableEq

/-- The source VM record as the saga uses it after `del vm['id']`,
`del vm['status']`: its name, uuid and device list. -/
structure VMRec where
  name : Str
  uuid : Str
  devices : List Device
deriving DecidableEq

/-- Errors (Python exceptions).  `callErr` is `CallError(msg, errno)`;
`keyErr` a `KeyError` from a missing attribute; `mwErr` an arbitrary error
produced by a middleware collaborator; `validationErrs` the exception raised
by `verrors.check()`; `fuelExhausted` marks exhaustion of the explicit fuel
of an embedded `while True` loop (shown unreachable). -/
inductive Err
  | callErr (msg : Str) (eno : Nat)
  | keyErr
  | mwErr (code : Nat)
  | validationErrs (errs : List (Str × Str))
  | fuelExhausted
deriving DecidableEq

/-- The mutating middleware calls (and log statements) the clone saga can
issue, in the order they are awaited; read-only queries are modelled through
the oracle instead.  `vmDelete`/`deviceDelete` exist in the middleware but
are never issued by the saga (claim C9). -/
inductive Call
  | vmCreate (name uuid : Str)
  | deviceCreate (d : Device)
  | portWizard
  | snapCreate (dataset name : Str)
  | snapClone (snapshot dataset_dst : Str)
  | dsDelete (i : Str)
  | snapRemove (dataset name : Str) (defer_delete : Bool)
  | vmDelete (id : Nat)
  | deviceDelete (id : Nat)
  | logRaw
  | logClone (i : Str)
  | logSnap (i : Str)
  | logInfo
deriving DecidableEq

/-- Equality of `Except` outcomes is decidable when both component types
have decidable equality (needed to evaluate concrete runs with `decide`). -/
instance {ε α : Type} [DecidableEq ε] [DecidableEq α] : DecidableEq (Except ε α) := fun x y =>
  match x, y with
  | .ok a, .ok b =>
    if h : a = b then isTrue (by rw [h]) else isFalse (fun he => by cases he; exact h rfl)
  | .error a, .error b =>
    if h : a = b then isTrue (by rw [h]) else isFalse (fun he => by cases he; exact h rfl)
  | .ok _, .error _ => isFalse (fun he => by cases he)
  | .error _, .ok _ => isFalse (fun he => by cases he)

/-- Result of an embedded step: the calls it issued, the two compensation
ledgers (`created_snaps`, `created_clones`) after it, and its outcome. -/
structure Res (α : Type) where
  trace : List Call
  snaps : List Str
  clones : List Str
  res : Except Err α
deriving DecidableEq

/-- The middleware collaborators as a deterministic oracle: query universes
(`dsIds`, `snapIds`, `vmQueryNames`) and the outcome of each mutating call. -/
structure MW where
  getInstance : Nat → Except Err VMRec
  vmQueryNames : Str → List Str
  freshUuid : Str
  vmCreateRes : Except Err Nat
  portWizardRes : Except Err (Nat × Nat)
  deviceCreateRes : Device → Except Err Unit
  dsIds : List Str
  snapIds : List Str
  snapCreateRes : Str → Str → Except Err Unit
  snapCloneRes : Str → Str → Except Err Unit
  dsDeleteRes : Str → Except Err Unit
  snapRemoveRes : Str → Str → Bool → Except Err Unit

/-- Modelled from the spec: `zvol_name_to_path` lives in
`plugins/zfs_/utils.py`, which is not part of this repository snapshot; the
spec only says the DISK attribute is rewritten to the returned clone path,
so it is modelled as prefixing the `/dev/zvol/` device directory. -/
def zvol_name_to_path (name : Str) : Str := "/dev/zvol/".data ++ name

/-- Modelled from the spec: `zvol_path_to_name` lives in
`plugins/zfs_/utils.py`, which is not part of this repository snapshot; the
spec only says the device's dataset path is resolved from the attribute, so
it is modelled as stripping the `/dev/zvol/` device directory. -/
def zvol_path_to_name (path : Str) : Str := path.drop ("/dev/zvol/".data).length

/-- `VMService.__clone_zvol` (clone.py lines 31-68): check the zvol exists,
allocate and create a snapshot (appending its id to `created_snaps` on
success), allocate a clone destination and clone the snapshot there
(appending the destination to `created_clones` on success). -/
def clone_zvol (mw : MW) (name zvol : Str) (created_snaps created_clones : List Str) :
    Res Str :=
  if zvol ∈ mw.dsIds then
    match snapshot_name_alloc mw.snapIds zvol name with
    | none => ⟨[], created_snaps, created_clones, .error .fuelExhausted⟩
    | some snapshot_name =>
      let zvol_snapshot := zvol ++ '@' :: snapshot_name
      match mw.snapCreateRes zvol snapshot_name with
      | .error e => ⟨[.snapCreate zvol snapshot_name], created_snaps, created_clones, .error e⟩
      | .ok _ =>
        let snaps' := created_snaps ++ [zvol_snapshot]
        match clone_dst_alloc mw.dsIds zvol name with
        | none => ⟨[.snapCreate zvol snapshot_name], snaps', created_clones, .error .fuelExhausted⟩
        | some clone_suffix =>
          let clone_dst := zvol ++ '_' :: clone_suffix
          match mw.snapCloneRes zvol_snapshot clone_dst with
          | .error e =>
            ⟨[.snapCreate zvol snapshot_name, .snapClone zvol_snapshot clone_dst],
              snaps', created_clones, .error e⟩
          | .ok _ =>
            ⟨[.snapCreate zvol snapshot_name, .snapClone zvol_snapshot clone_dst],
              snaps', created_clones ++ [clone_dst], .ok clone_dst⟩
  else
    ⟨[], created_snaps, created_clones,
      .error (.callErr ("zvol ".data ++ zvol ++ " does not exist.".data) 2)⟩

/-- `await self.middleware.call('vm.device.create', item)` (clone.py line
119) together with its trace entry. -/
def createDevice (mw : MW) (item : Device) (pre : List Call) (snaps clones : List Str) :
    Res Unit :=
  ⟨pre ++ [.deviceCreate item], snaps, clones, mw.deviceCreateRes item⟩

/-- One iteration of the device loop of `VMService.clone` (clone.py lines
99-119): strip the device id, reassign it to the new VM, apply the
type-specific transform and create the device record (except for RAW, which
only logs a warning and is skipped). -/
def processItem (mw : MW) (newId : Nat) (newName : Str) (item0 : Device)
    (snaps clones : List Str) : Res Unit :=
  let item : Device := { item0 with id := none, vm := some newId }
  match item.dtype with
  | .NIC =>
    let item :=
      if item.attributes.mac ≠ none then
        { item with attributes := { item.attributes with mac := none } }
      else item
    createDevice mw item [] snaps clones
  | .DISPLAY =>
    if item.attributes.port ≠ none then
      match mw.portWizardRes with
      | .error e => ⟨[.portWizard], snaps, clones, .error e⟩
      | .ok pw =>
        let item :=
          { item with attributes :=
              { item.attributes with port := some pw.1, web_port := some pw.2 } }
        createDevice mw item [.portWizard] snaps clones
    else createDevice mw item [] snaps clones
  | .DISK =>
    match item.attributes.path with
    | none => ⟨[], snaps, clones, .error .keyErr⟩
    | some p =>
      let zvol := zvol_path_to_name p
      let r := clone_zvol mw newName zvol snaps clones
      match r.res with
      | .error e => ⟨r.trace, r.snaps, r.clones, .error e⟩
      | .ok dst =>
        let item :=
          { item with attributes :=
              { item.attributes with path := some (zvol_name_to_path dst) } }
        let r2 := createDevice mw item [] r.snaps r.clones
        ⟨r.trace ++ r2.trace, r2.snaps, r2.clones, r2.res⟩
  | .RAW => ⟨[.logRaw], snaps, clones, .ok ()⟩

/-- The device loop of `VMService.clone` (clone.py lines 99-119): process the
devices in source order, threading the compensation ledgers; the first
exception aborts the loop and propagates. -/
def processDevices (mw : MW) (newId : Nat) (newName : Str) :
    List Device → List Str → List Str → Res Unit
  | [], snaps, clones => ⟨[], snaps, clones, .ok ()⟩
  | item :: rest, snaps, clones =>
    let r := processItem mw newId newName item snaps clones
    match r.res with
    | .error e => ⟨r.trace, r.snaps, r.clones, .error e⟩
    | .ok _ =>
      let r2 := processDevices mw newId newName rest r.snaps r.clones
      ⟨r.trace ++ r2.trace, r2.snaps, r2.clones, r2.res⟩

/-- The first rollback loop (clone.py lines 121-125): for each ledgered clone
(already reversed by the caller) attempt `zfs.dataset.delete`; on failure log
a warning and continue. -/
def rollbackClones (mw : MW) : List Str → List Call
  | [] => []
  | i :: rest =>
    (Call.dsDelete i ::
      match mw.dsDeleteRes i with
      | .ok _ => []
      | .error _ => [.logClone i]) ++ rollbackClones mw rest

/-- The second rollback loop (clone.py lines 126-135): for each ledgered
snapshot (already reversed by the caller) split its id on `'@'` and attempt
`zfs.snapshot.remove` with `defer_delete = True`; any failure inside the
`try` (including the tuple unpacking of the split) is logged and swallowed. -/
def rollbackSnaps (mw : MW) : List Str → List Call
  | [] => []
  | i :: rest =>
    (match splitPair i with
      | none => [Call.logSnap i]
      | some dn =>
        Call.snapRemove dn.1 dn.2 true ::
          match mw.snapRemoveRes dn.1 dn.2 true with
          | .ok _ => []
          | .error _ => [.logSnap i]) ++ rollbackSnaps mw rest

/-- The rollback of the `except` block of `VMService.clone` (clone.py lines
120-135): clones in reverse creation order first, then snapshots in reverse
creation order. -/
def rollback (mw : MW) (created_snaps created_clones : List Str) : List Call :=
  rollbackClones mw created_clones.reverse ++ rollbackSnaps mw created_snaps.reverse

/-- The name override of clone.py lines 90-91: the caller-supplied name wins
verbatim over the allocated one. -/
def overrideName (nameArg : Option Str) (alloc : Str) : Str :=
  match nameArg with
  | some n => n
  | none => alloc

/-- `VMService.clone` (clone.py lines 70-139): fetch the source VM, allocate
(and possibly override) the new name, then inside the `try` create the new VM
record and process its devices; on any exception run the rollback and re-raise
the captured exception; on success log and return `True`. -/
def clone (mw : MW) (id : Nat) (nameArg : Option Str) : List Call × Except Err Bool :=
  match mw.getInstance id with
  | .error e => ([], .error e)
  | .ok vm =>
    match next_clone_name (mw.vmQueryNames vm.name) vm.name with
    | none => ([], .error .fuelExhausted)
    | some alloc =>
      let newName := overrideName nameArg alloc
      match mw.vmCreateRes with
      | .error e => ([Call.vmCreate newName mw.freshUuid] ++ rollback mw [] [], .error e)
      | .ok newId =>
        let r := processDevices mw newId newName vm.devices [] []
        match r.res with
        | .error e =>
          (Call.vmCreate newName mw.freshUuid :: r.trace ++ rollback mw r.snaps r.clones,
            .error e)
        | .ok _ =>
          (Call.vmCreate newName mw.freshUuid :: r.trace ++ [.logInfo], .ok true)

/-- Recognises `zfs.dataset.delete` calls in a trace. -/
def isDsDeleteCall : Call → Bool
  | .dsDelete _ => true
  | _ => false

/-- Recognises `zfs.snapshot.remove` calls in a trace. -/
def isSnapRemoveCall : Call → Bool
  | .snapRemove _ _ _ => true
  | _ => false

/-- Recognises `vm.port_wizard` calls in a trace. -/
def isPortWizardCall : Call → Bool
  | .portWizard => true
  | _ => false

/-! ## Data model of the dataset property engine (dataset.py) -/

/-- A single property change as passed in `dataset_update.properties[k]`:
a Python dict with optional `source`, `parsed` and `value` keys (only
presence and the `source` string matter to the validation). -/
structure Change where
  source : Option Str
  parsed : Option Str
  value : Option Str
deriving DecidableEq

/-- The dataset object as `update_zfs_object_props` sees it: the names of the
properties it currently has (`zfs_object.properties`). -/
structure ZfsObj where
  props : List Str
deriving DecidableEq

/-- Calls the property engine issues against the underlying store. -/
inductive PCall
  | updateProps (properties : List (Str × Change))
deriving DecidableEq

/-- Oracle for the dataset service: dataset lookup and the outcome of
`zfs_object.update_properties` (an error carries the `ZFSException` text). -/
structure DSMW where
  getDataset : Str → Except Str ZfsObj
  updatePropsRes : List (Str × Change) → Except Str Unit

/-- The validation errors `update_zfs_object_props` (dataset.py lines
233-245) records for one change `k = v`: an `INHERIT` change requires the
property to exist; otherwise a `parsed` or `value` entry must be present, and
a new (non-existing) property name must contain a colon. -/
def entryErrors (dsProps : List Str) (k : Str) (v : Change) : List (Str × Str) :=
  if v.source = some ("INHERIT".data) then
    if ¬ k ∈ dsProps then
      [("properties.".data ++ k, "Property does not exist and cannot be inherited".data)]
    else []
  else
    (if v.parsed = none ∧ v.value = none then
      [("properties.".data ++ k,
        "value or parsed must be specified when setting a property".data)]
    else []) ++
    (if ¬ k ∈ dsProps ∧ ¬ ':' ∈ k then
      [("properties.".data ++ k, "User property needs a colon (:) in its name".data)]
    else [])

/-- `ZFSDatasetService.update_zfs_object_props` (dataset.py lines 232-252):
validate every change, raise the accumulated validation errors if any, and
only then call `zfs_object.update_properties` (mapping its failure to a
`CallError`). -/
def update_zfs_object_props (mw : DSMW) (properties : List (Str × Change)) (zfs_object : ZfsObj) :
    List PCall × Except Err Unit :=
  let verrors := properties.flatMap (fun p => entryErrors zfs_object.props p.1 p.2)
  if verrors ≠ [] then ([], .error (.validationErrs verrors))
  else
    match mw.updatePropsRes properties with
    | .error e =>
      ([.updateProps properties],
        .error (.callErr ("Failed to update properties: ".data ++ e) 0))
    | .ok _ => ([.updateProps properties], .ok ())

/-- The dict mutation `properties[k] = properties.pop(k)` guarded by
`if k in properties` (dataset.py lines 175-177): on an (insertion-ordered)
Python dict this moves key `k` to the end, keeping its value. -/
def moveKeyToEnd (k : Str) (l : List (Str × Change)) : List (Str × Change) :=
  match l.find? (fun p => decide (p.1 = k)) with
  | none => l
  | some e => l.filter (fun p => decide (¬ p.1 = k)) ++ [e]

/-- The reordering loop `for k in ['quota', 'refquota']` of
`ZFSDatasetService.do_update` (dataset.py lines 174-177). -/
def reorderProps (l : List (Str × Change)) : List (Str × Change) :=
  moveKeyToEnd ("refquota".data) (moveKeyToEnd ("quota".data) l)

/-- `ZFSDatasetService.do_update` (dataset.py lines 167-184): look up the
dataset (failures become `CallError`), and if a `properties` key is present,
move `quota`/`refquota` to the end and run the property engine. -/
def do_update (mw : DSMW) (id : Str) (properties : Option (List (Str × Change))) :
    List PCall × Except Err Unit :=
  match mw.getDataset id with
  | .error e => ([], .error (.callErr ("Failed to update dataset: ".data ++ e) 0))
  | .ok dataset =>
    match properties with
    | none => ([], .ok ())
    | some ps => update_zfs_object_props mw (reorderProps ps) dataset

/-- Oracle for `do_delete`: the return code of the best-effort
`zfs recv -A id` abort and the outcome of the `zfs destroy` command for the
given flags and id (an error carries the command's stderr). -/
structure DelMW where
  recvRc : Str → Int
  destroyRes : Bool → Bool → Str → Except Str Unit

/-- `errno.EBUSY`. -/
def EBUSY : Nat := 16

/-- `errno.EFAULT`. -/
def EFAULT : Nat := 14

/-- `ZFSDatasetService.do_delete` (dataset.py lines 194-222): abort any
in-progress receive (ignoring its outcome except for the return code), run
`zfs destroy`; when the destroy fails but the abort exited 0 and the engine
reports the dataset is gone, treat it as success (the bare `return`, i.e.
`none`); otherwise classify busy failures as `EBUSY` and raise. -/
def do_delete (mw : DelMW) (id : Str) (force recursive : Bool) :
    Except Err (Option Bool) :=
  let recv_rc := mw.recvRc id
  match mw.destroyRes force recursive id with
  | .ok _ => .ok (some true)
  | .error stderr =>
    if recv_rc = 0 ∧ ("dataset does not exist".data).isSuffixOf (pyStrip stderr) = true then
      .ok none
    else
      let error := pyStrip stderr
      let eno :=
        if isSubstring ("Device busy".data) error = true ∨
            isSubstring ("dataset is busy".data) error = true then EBUSY
        else EFAULT
      .error (.callErr ("Failed to delete dataset: ".data ++ error) eno)

/-- Recognises the two record-deleting middleware calls the saga never
issues: `vm.delete` and `vm.device.delete`. -/
def isVmOrDeviceDelete : Call → Bool
  | .vmDelete _ => true
  | .deviceDelete _ => true
  | _ => false

/-! ## Concrete inputs used by the witnesses and counterexamples -/

/-- A NIC device of the source VM. -/
def nicDev : Device :=
  ⟨some 1, none, DType.NIC, ⟨some ("aa:bb".data), none, none, none⟩⟩

/-- A DISPLAY device of the source VM whose attributes contain a `port` key. -/
def dispDev : Device :=
  ⟨some 2, none, DType.DISPLAY, ⟨none, some 5900, some 5910, none⟩⟩

/-- A DISPLAY device whose attributes do NOT contain a `port` key. -/
def dispNoPortDev : Device :=
  ⟨some 2, none, DType.DISPLAY, ⟨none, none, some 5910, none⟩⟩

/-- A DISK device backed by the zvol `z`. -/
def diskDev : Device :=
  ⟨some 3, none, DType.DISK, ⟨none, none, none, some ("/dev/zvol/z".data)⟩⟩

/-- A RAW device (skipped by the saga). -/
def rawDev : Device :=
  ⟨some 4, none, DType.RAW, ⟨none, none, none, none⟩⟩

/-- The concrete source VM. -/
def vmSrc : VMRec :=
  ⟨"vm".data, "u".data, [nicDev, dispDev, diskDev, rawDev]⟩

/-- A middleware oracle on which every call succeeds. -/
def mwBase : MW where
  getInstance := fun _ => .ok vmSrc
  vmQueryNames := fun _ => []
  freshUuid := "u2".data
  vmCreateRes := .ok 7
  portWizardRes := .ok (5950, 5960)
  deviceCreateRes := fun _ => .ok ()
  dsIds := ["z".data]
  snapIds := []
  snapCreateRes := fun _ _ => .ok ()
  snapCloneRes := fun _ _ => .ok ()
  dsDeleteRes := fun _ => .ok ()
  snapRemoveRes := fun _ _ _ => .ok ()

/-- The all-success oracle, except that cloning a snapshot fails. -/
def mwCloneFail : MW :=
  { mwBase with snapCloneRes := fun _ _ => .error (.mwErr 7) }

/-- A dataset-service oracle whose target dataset has the `quota` and
`compression` properties and on which every call succeeds. -/
def dsmwQC : DSMW where
  getDataset := fun _ => .ok ⟨["quota".data, "compression".data]⟩
  updatePropsRes := fun _ => .ok ()

/-- A property change carrying a `parsed` value. -/
def chgParsed : Change := ⟨none, some ("v".data), none⟩

/-- A property change carrying neither `parsed` nor `value`. -/
def chgEmpty : Change := ⟨none, none, none⟩

/-- A property-change batch with `quota` first and `compression` second. -/
def propsQC : List (Str × Change) :=
  [("quota".data, chgParsed), ("compression".data, chgParsed)]

/-- A delete oracle: the receive abort exits 0 and the destroy fails
reporting that the dataset does not exist. -/
def delmwRace : DelMW where
  recvRc := fun _ => 0
  destroyRes := fun _ _ _ =>
    .error ("cannot destroy 'p/d': dataset does not exist\n".data)

/-! ## Decimal rendering: digits, non-emptiness, injectivity -/

theorem digitChar_isDigit : ∀ d < 10, (digitChar d).isDigit = true := by decide

theorem digitChar_decode : ∀ d < 10, (digitChar d).toNat - 48 = d := by decide

theorem natCharsAux_zero (fuel : Nat) : natCharsAux fuel 0 = [] := by
  cases fuel <;> simp [natCharsAux]

theorem natCharsAux_all_digit (fuel : Nat) :
    ∀ n, ∀ c ∈ natCharsAux fuel n, c.isDigit = true := by
  induction fuel with
  | zero => intro n c hc; simp [natCharsAux] at hc
  | succ fuel ih =>
    intro n c hc
    by_cases h : n = 0
    · simp [natCharsAux, h] at hc
    · simp only [natCharsAux, h, if_false, List.mem_append, List.mem_singleton] at hc
      rcases hc with hc | hc
      · exact ih _ c hc
      · subst hc; exact digitChar_isDigit _ (Nat.mod_lt _ (by norm_num))

theorem natChars_all_digit (n : Nat) : ∀ c ∈ natChars n, c.isDigit = true := by
  intro c hc
  by_cases h : n = 0
  · simp [natChars, h] at hc; subst hc; decide
  · simp only [natChars, h, if_false] at hc
    exact natCharsAux_all_digit n n c hc

theorem natChars_ne_nil (n : Nat) : natChars n ≠ [] := by
  by_cases h : n = 0
  · simp [natChars, h]
  · simp only [natChars, h, if_false]
    cases hn : n with
    | zero => exact absurd hn h
    | succ m => simp [natCharsAux, h]

theorem decode_aux (fuel : Nat) :
    ∀ n a, 0 < n → n ≤ fuel →
      (natCharsAux fuel n).foldl (fun a c => a * 10 + (c.toNat - 48)) a =
        a * 10 ^ (natCharsAux fuel n).length + n := by
  induction fuel with
  | zero => intro n a h1 h2; omega
  | succ fuel ih =>
    intro n a h1 h2
    have hn : ¬ n = 0 := by omega
    have hmod : (digitChar (n % 10)).toNat - 48 = n % 10 :=
      digitChar_decode _ (Nat.mod_lt _ (by norm_num))
    by_cases h10 : n < 10
    · have hdiv : n / 10 = 0 := Nat.div_eq_of_lt h10
      have hself : n % 10 = n := Nat.mod_eq_of_lt h10
      simp only [natCharsAux, hn, if_false, hdiv, natCharsAux_zero, List.nil_append,
        List.foldl_cons, List.foldl_nil, List.length_cons, List.length_nil]
      rw [hmod, hself]
      ring
    · have hdiv_pos : 0 < n / 10 := Nat.div_pos (by omega) (by norm_num)
      have hdiv_le : n / 10 ≤ fuel := by
        have := Nat.div_lt_self h1 (by norm_num : 1 < 10)
        omega
      simp only [natCharsAux, hn, if_false, List.foldl_append, List.foldl_cons,
        List.foldl_nil, List.length_append, List.length_cons, List.length_nil]
      rw [ih _ a hdiv_pos hdiv_le, hmod]
      have key : n / 10 * 10 + n % 10 = n := by omega
      calc (a * 10 ^ (natCharsAux fuel (n / 10)).length + n / 10) * 10 + n % 10
          = a * (10 ^ (natCharsAux fuel (n / 10)).length * 10) +
              (n / 10 * 10 + n % 10) := by ring
        _ = a * 10 ^ ((natCharsAux fuel (n / 10)).length + (0 + 1)) + n := by
              rw [key, Nat.zero_add, pow_succ]

theorem decode_natChars (n : Nat) : decodeDigits (natChars n) = n := by
  by_cases h : n = 0
  · subst h; decide
  · have h1 : 0 < n := Nat.pos_of_ne_zero h
    simp only [natChars, h, if_false, decodeDigits]
    have := decode_aux n n 0 h1 (le_refl n)
    simpa using this

theorem natChars_injective : Function.Injective natChars := by
  intro a b h
  have h2 : decodeDigits (natChars a) = decodeDigits (natChars b) := by rw [h]
  rwa [decode_natChars, decode_natChars] at h2

/-! ## The greedy regex capture `extractPrefixL` -/

theorem digit_ne_underscore {c : Char} (h : c.isDigit = true) : c ≠ '_' := by
  intro he; subst he; exact absurd h (by decide)

theorem tailMatches_head (c : Char) (rest : List Char)
    (h : tailMatches (c :: rest) = true) : c = '_' := by
  simp only [tailMatches, Bool.and_eq_true, decide_eq_true_eq] at h
  obtain ⟨⟨h1, _⟩, _⟩ := h
  have ht : (c :: rest).take 6 = c :: rest.take 5 := rfl
  have hs : ZVOL_CLONE_SUFFIX = '_' :: "clone".data := rfl
  rw [ht, hs] at h1
  injection h1 with hc _

theorem extractPrefixL_eq_none (l : List Char) (h : ∀ c ∈ l, c ≠ '_') :
    extractPrefixL l = none := by
  induction l with
  | nil => rfl
  | cons c rest ih =>
    have hrest := ih (fun x hx => h x (List.mem_cons_of_mem _ hx))
    have htm : tailMatches (c :: rest) = false := by
      cases hb : tailMatches (c :: rest) with
      | false => rfl
      | true => exact absurd (tailMatches_head c rest hb) (h c (List.mem_cons_self _ _))
    simp [extractPrefixL, hrest, htm]

theorem tailMatches_suffix_digits (d : List Char) (hne : d ≠ [])
    (hd : ∀ c ∈ d, c.isDigit = true) :
    tailMatches (ZVOL_CLONE_SUFFIX ++ d) = true := by
  have h6 : ZVOL_CLONE_SUFFIX.length = 6 := rfl
  have htake : (ZVOL_CLONE_SUFFIX ++ d).take 6 = ZVOL_CLONE_SUFFIX := by
    rw [← h6]; simp
  have hdrop : (ZVOL_CLONE_SUFFIX ++ d).drop 6 = d := by
    rw [← h6]; simp
  simp only [tailMatches, htake, hdrop, Bool.and_eq_true, decide_eq_true_eq]
  exact ⟨⟨trivial, hne⟩, List.all_eq_true.mpr hd⟩

theorem extractPrefixL_cons_none (c : Char) (rest : List Char)
    (h : extractPrefixL rest = none) :
    extractPrefixL (c :: rest) =
      if tailMatches (c :: rest) then some [] else none := by
  simp only [extractPrefixL, h]

theorem extractPrefixL_cons_some (c : Char) (rest p : List Char)
    (h : extractPrefixL rest = some p) :
    extractPrefixL (c :: rest) = some (c :: p) := by
  simp only [extractPrefixL, h]

theorem extractPrefixL_canonical (q d : List Char) (hne : d ≠ [])
    (hd : ∀ c ∈ d, c.isDigit = true) :
    extractPrefixL (q ++ ZVOL_CLONE_SUFFIX ++ d) = some q := by
  induction q with
  | nil =>
    have hsfx : ZVOL_CLONE_SUFFIX ++ d = '_' :: ("clone".data ++ d) := rfl
    have hnone : extractPrefixL ("clone".data ++ d) = none := by
      apply extractPrefixL_eq_none
      intro c hc
      rcases List.mem_append.mp hc with hc | hc
      · have h5 : ("clone".data : List Char) = ['c', 'l', 'o', 'n', 'e'] := rfl
        rw [h5] at hc
        simp only [List.mem_cons, List.not_mem_nil, or_false] at hc
        rcases hc with rfl | rfl | rfl | rfl | rfl <;> decide
      · exact digit_ne_underscore (hd c hc)
    have ht : tailMatches ('_' :: ("clone".data ++ d)) = true := by
      rw [← hsfx]; exact tailMatches_suffix_digits d hne hd
    rw [List.nil_append, hsfx, extractPrefixL_cons_none _ _ hnone, ht]
    rfl
  | cons c q ih =>
    have hgoal : (c :: q) ++ ZVOL_CLONE_SUFFIX ++ d = c :: (q ++ ZVOL_CLONE_SUFFIX ++ d) := by
      simp
    rw [hgoal, extractPrefixL_cons_some _ _ _ ih]

theorem cloneSub_canonical (name q : Str) (m i : Nat) :
    cloneSub name (q ++ ZVOL_CLONE_SUFFIX ++ natChars m) i =
      q ++ ZVOL_CLONE_SUFFIX ++ natChars i := by
  unfold cloneSub
  rw [extractPrefixL_canonical q (natChars m) (natChars_ne_nil m) (natChars_all_digit m)]

/-! ## Termination and freshness of the name-search loops -/

theorem allocSeq_zero (step : Str → Nat → Str) (c : Str) (i : Nat) :
    allocSeq step c i 0 = c := rfl

theorem allocSeq_succ (step : Str → Nat → Str) (c : Str) (i k : Nat) :
    allocSeq step c i (k + 1) = allocSeq step (step c i) (i + 1) k := rfl

theorem allocSeq_cloneSub (name q : Str) :
    ∀ k m i, allocSeq (cloneSub name) (q ++ ZVOL_CLONE_SUFFIX ++ natChars m) i (k + 1) =
      q ++ ZVOL_CLONE_SUFFIX ++ natChars (i + k) := by
  intro k
  induction k with
  | zero =>
    intro m i
    rw [allocSeq_succ, cloneSub_canonical, allocSeq_zero, Nat.add_zero]
  | succ k ih =>
    intro m i
    rw [allocSeq_succ, cloneSub_canonical, ih i (i + 1)]
    have h2 : i + 1 + k = i + (k + 1) := by omega
    rw [h2]

theorem allocSeq_constStep (name : Str) :
    ∀ k i c, allocSeq (fun _ j => name ++ ZVOL_CLONE_SUFFIX ++ natChars j) c i (k + 1) =
      name ++ ZVOL_CLONE_SUFFIX ++ natChars (i + k) := by
  intro k
  induction k with
  | zero =>
    intro i c
    show name ++ ZVOL_CLONE_SUFFIX ++ natChars i = name ++ ZVOL_CLONE_SUFFIX ++ natChars (i + 0)
    rw [Nat.add_zero]
  | succ k ih =>
    intro i c
    rw [allocSeq_succ, ih (i + 1)]
    have h2 : i + 1 + k = i + (k + 1) := by omega
    rw [h2]

theorem allocLoop_reaches (test : Str → Bool) (step : Str → Nat → Str) :
    ∀ (fuel i : Nat) (c : Str), (∃ k < fuel, test (allocSeq step c i k) = false) →
      ∃ r, allocLoop test step fuel c i = some r ∧ test r = false := by
  intro fuel
  induction fuel with
  | zero =>
    intro i c h
    obtain ⟨k, hk, _⟩ := h
    omega
  | succ fuel ih =>
    intro i c h
    obtain ⟨k, hk, hkf⟩ := h
    by_cases hc : test c = true
    · have hk0 : k ≠ 0 := by
        rintro rfl
        rw [allocSeq_zero] at hkf
        rw [hc] at hkf
        cases hkf
      obtain ⟨k', rfl⟩ : ∃ k', k = k' + 1 := ⟨k - 1, by omega⟩
      rw [allocSeq_succ] at hkf
      obtain ⟨r, hr, hrf⟩ := ih (i + 1) (step c i) ⟨k', by omega, hkf⟩
      refine ⟨r, ?_, hrf⟩
      simpa [allocLoop, hc] using hr
    · have hcf : test c = false := by
        cases hb : test c with
        | false => rfl
        | true => exact absurd hb hc
      exact ⟨c, by simp [allocLoop, hcf], hcf⟩

theorem exists_fresh_index (l : List Str) (g : Nat → Str) (hg : Function.Injective g) :
    ∃ k ≤ l.length, g k ∉ l := by
  by_contra h
  push_neg at h
  have himg : (Finset.range (l.length + 1)).image g ⊆ l.toFinset := by
    intro x hx
    obtain ⟨k, hk, rfl⟩ := Finset.mem_image.mp hx
    exact List.mem_toFinset.mpr (h k (Nat.lt_succ_iff.mp (Finset.mem_range.mp hk)))
  have hcard := Finset.card_le_card himg
  rw [Finset.card_image_of_injective _ hg, Finset.card_range] at hcard
  have := List.toFinset_card_le l
  omega

theorem suffix_family_injective (pre : Str) :
    Function.Injective (fun k => pre ++ ZVOL_CLONE_SUFFIX ++ natChars k) := by
  intro a b h
  simp only [List.append_assoc] at h
  have h2 := List.append_cancel_left h
  have h3 := List.append_cancel_left h2
  exact natChars_injective h3

theorem wrapped_suffix_family_injective (zvol : Str) (c : Char) (pre : Str) :
    Function.Injective (fun k => zvol ++ c :: (pre ++ ZVOL_CLONE_SUFFIX ++ natChars k)) := by
  intro a b h
  simp only at h
  have h2 := List.append_cancel_left h
  have h3 : pre ++ ZVOL_CLONE_SUFFIX ++ natChars a = pre ++ ZVOL_CLONE_SUFFIX ++ natChars b := by
    injection h2
  exact suffix_family_injective pre h3

theorem next_clone_name_spec (vm_names : List Str) (name : Str) :
    ∃ r, next_clone_name vm_names name = some r ∧ r ∉ vm_names := by
  obtain ⟨k, hk, hfree⟩ := exists_fresh_index vm_names _ (suffix_family_injective name)
  have hseq : ∀ j, allocSeq (fun _ i => name ++ ZVOL_CLONE_SUFFIX ++ natChars i)
      (name ++ ZVOL_CLONE_SUFFIX ++ natChars 0) 1 j =
      name ++ ZVOL_CLONE_SUFFIX ++ natChars j := by
    intro j
    cases j with
    | zero => rfl
    | succ j' =>
      rw [allocSeq_constStep name j' 1 _, Nat.add_comm 1 j']
  have hex : ∃ j < vm_names.length + 2,
      (fun c => decide (c ∈ vm_names))
        (allocSeq (fun _ i => name ++ ZVOL_CLONE_SUFFIX ++ natChars i)
          (name ++ ZVOL_CLONE_SUFFIX ++ natChars 0) 1 j) = false := by
    refine ⟨k, by omega, ?_⟩
    rw [hseq k]
    exact decide_eq_false_iff_not.mpr hfree
  obtain ⟨r, hr, hrf⟩ := allocLoop_reaches (fun c => decide (c ∈ vm_names))
    (fun _ i => name ++ ZVOL_CLONE_SUFFIX ++ natChars i) (vm_names.length + 2) 1
    (name ++ ZVOL_CLONE_SUFFIX ++ natChars 0) hex
  exact ⟨r, hr, decide_eq_false_iff_not.mp hrf⟩

theorem snapshot_name_alloc_spec (snapIds : List Str) (zvol name : Str) :
    ∃ r, snapshot_name_alloc snapIds zvol name = some r ∧ (zvol ++ '@' :: r) ∉ snapIds := by
  by_cases htaken : (zvol ++ '@' :: name) ∈ snapIds
  · -- the start is taken; afterwards the candidates form the canonical family
    have hq : ∃ q, cloneSub name name 0 = q ++ ZVOL_CLONE_SUFFIX ++ natChars 0 := by
      unfold cloneSub
      cases extractPrefixL name with
      | none => exact ⟨name, rfl⟩
      | some p => exact ⟨p, rfl⟩
    obtain ⟨q, hq⟩ := hq
    obtain ⟨k, hk, hfree⟩ :=
      exists_fresh_index snapIds _ (wrapped_suffix_family_injective zvol '@' q)
    have hseq : ∀ j, allocSeq (cloneSub name) name 0 (j + 1) =
        q ++ ZVOL_CLONE_SUFFIX ++ natChars j := by
      intro j
      cases j with
      | zero => rw [allocSeq_succ, allocSeq_zero, hq]
      | succ j' =>
        rw [allocSeq_succ, hq, allocSeq_cloneSub name q j' 0 1, Nat.add_comm 1 j']
    have hex : ∃ j < snapIds.length + 2,
        (fun c => decide ((zvol ++ '@' :: c) ∈ snapIds))
          (allocSeq (cloneSub name) name 0 j) = false := by
      refine ⟨k + 1, by omega, ?_⟩
      rw [hseq k]
      exact decide_eq_false_iff_not.mpr hfree
    obtain ⟨r, hr, hrf⟩ := allocLoop_reaches (fun c => decide ((zvol ++ '@' :: c) ∈ snapIds))
      (cloneSub name) (snapIds.length + 2) 0 name hex
    exact ⟨r, hr, decide_eq_false_iff_not.mp hrf⟩
  · -- the very first candidate is free
    have hex : ∃ j < snapIds.length + 2,
        (fun c => decide ((zvol ++ '@' :: c) ∈ snapIds))
          (allocSeq (cloneSub name) name 0 j) = false :=
      ⟨0, by omega, by rw [allocSeq_zero]; exact decide_eq_false_iff_not.mpr htaken⟩
    obtain ⟨r, hr, hrf⟩ := allocLoop_reaches (fun c => decide ((zvol ++ '@' :: c) ∈ snapIds))
      (cloneSub name) (snapIds.length + 2) 0 name hex
    exact ⟨r, hr, decide_eq_false_iff_not.mp hrf⟩

theorem clone_dst_alloc_spec (dsIds : List Str) (zvol name : Str) :
    ∃ r, clone_dst_alloc dsIds zvol name = some r ∧ (zvol ++ '_' :: r) ∉ dsIds := by
  by_cases htaken : (zvol ++ '_' :: name) ∈ dsIds
  · have hq : ∃ q, cloneSub name name 0 = q ++ ZVOL_CLONE_SUFFIX ++ natChars 0 := by
      unfold cloneSub
      cases extractPrefixL name with
      | none => exact ⟨name, rfl⟩
      | some p => exact ⟨p, rfl⟩
    obtain ⟨q, hq⟩ := hq
    obtain ⟨k, hk, hfree⟩ :=
      exists_fresh_index dsIds _ (wrapped_suffix_family_injective zvol '_' q)
    have hseq : ∀ j, allocSeq (cloneSub name) name 0 (j + 1) =
        q ++ ZVOL_CLONE_SUFFIX ++ natChars j := by
      intro j
      cases j with
      | zero => rw [allocSeq_succ, allocSeq_zero, hq]
      | succ j' =>
        rw [allocSeq_succ, hq, allocSeq_cloneSub name q j' 0 1, Nat.add_comm 1 j']
    have hex : ∃ j < dsIds.length + 2,
        (fun c => decide ((zvol ++ '_' :: c) ∈ dsIds))
          (allocSeq (cloneSub name) name 0 j) = false := by
      refine ⟨k + 1, by omega, ?_⟩
      rw [hseq k]
      exact decide_eq_false_iff_not.mpr hfree
    obtain ⟨r, hr, hrf⟩ := allocLoop_reaches (fun c => decide ((zvol ++ '_' :: c) ∈ dsIds))
      (cloneSub name) (dsIds.length + 2) 0 name hex
    exact ⟨r, hr, decide_eq_false_iff_not.mp hrf⟩
  · have hex : ∃ j < dsIds.length + 2,
        (fun c => decide ((zvol ++ '_' :: c) ∈ dsIds))
          (allocSeq (cloneSub name) name 0 j) = false :=
      ⟨0, by omega, by rw [allocSeq_zero]; exact decide_eq_false_iff_not.mpr htaken⟩
    obtain ⟨r, hr, hrf⟩ := allocLoop_reaches (fun c => decide ((zvol ++ '_' :: c) ∈ dsIds))
      (cloneSub name) (dsIds.length + 2) 0 name hex
    exact ⟨r, hr, decide_eq_false_iff_not.mp hrf⟩

/-- Claim C2: for every base name and every finite existing-name set, each of
the three name-allocation loops (entity clone names, snapshot names under a
dataset, clone target names under a dataset) terminates (the fuelled loop
returns `some`) and the returned candidate is not a member of the queried
existing-name set. -/
theorem C2_allocation_loops_terminate_fresh
    (vm_names snapIds dsIds : List Str) (base zvol name : Str) :
    (∃ r, next_clone_name vm_names base = some r ∧ r ∉ vm_names) ∧
    (∃ r, snapshot_name_alloc snapIds zvol name = some r ∧ (zvol ++ '@' :: r) ∉ snapIds) ∧
    (∃ r, clone_dst_alloc dsIds zvol name = some r ∧ (zvol ++ '_' :: r) ∉ dsIds) :=
  ⟨next_clone_name_spec vm_names base, snapshot_name_alloc_spec snapIds zvol name,
    clone_dst_alloc_spec dsIds zvol name⟩

/-- Claim C3 counterexample: allocating from base `foo_clone3` (suffix tag
`_clone`) against the existing-name set containing exactly `foo_clone3`
returns `foo_clone0` — the loop replaces the numeric suffix but restarts its
index at 0, so the result is not the claimed `foo_clone4`. -/
theorem C3_counterexample :
    snapshot_name_alloc ["z@foo_clone3".data] ("z".data) ("foo_clone3".data) =
      some ("foo_clone0".data) ∧
    some ("foo_clone0".data) ≠ some ("foo_clone4".data) := by
  decide

/-- Claim C3 (amended): allocating from base `foo_clone3` with suffix tag
`_clone` against the existing-name set containing exactly `foo_clone3`
returns exactly `foo_clone0`: the existing numeric suffix is replaced (with
the index restarting at 0) rather than stacked, so the result is neither the
taken `foo_clone3` nor the stacked `foo_clone3_clone0`. -/
theorem C3_amended_suffix_replaced_not_stacked :
    snapshot_name_alloc ["z@foo_clone3".data] ("z".data) ("foo_clone3".data) =
      some ("foo_clone0".data) ∧
    some ("foo_clone0".data) ≠ some ("foo_clone3_clone0".data) ∧
    some ("foo_clone0".data) ≠ some ("foo_clone3".data) := by
  decide

/-! ## Ledger discipline of `__clone_zvol` and the device loop -/

theorem clone_zvol_ledgers_extend (mw : MW) (name zvol : Str) (snaps clones : List Str) :
    ∃ ds cs, (clone_zvol mw name zvol snaps clones).snaps = snaps ++ ds ∧
      (clone_zvol mw name zvol snaps clones).clones = clones ++ cs := by
  by_cases hz : zvol ∈ mw.dsIds
  · cases hs : snapshot_name_alloc mw.snapIds zvol name with
    | none => exact ⟨[], [], by simp [clone_zvol, hz, hs], by simp [clone_zvol, hz, hs]⟩
    | some sname =>
      cases hc : mw.snapCreateRes zvol sname with
      | error e =>
        exact ⟨[], [], by simp [clone_zvol, hz, hs, hc], by simp [clone_zvol, hz, hs, hc]⟩
      | ok u =>
        cases hd : clone_dst_alloc mw.dsIds zvol name with
        | none =>
          exact ⟨[zvol ++ '@' :: sname], [], by simp [clone_zvol, hz, hs, hc, hd],
            by simp [clone_zvol, hz, hs, hc, hd]⟩
        | some csuf =>
          cases he : mw.snapCloneRes (zvol ++ '@' :: sname) (zvol ++ '_' :: csuf) with
          | error e2 =>
            exact ⟨[zvol ++ '@' :: sname], [], by simp [clone_zvol, hz, hs, hc, hd, he],
              by simp [clone_zvol, hz, hs, hc, hd, he]⟩
          | ok u2 =>
            exact ⟨[zvol ++ '@' :: sname], [zvol ++ '_' :: csuf],
              by simp [clone_zvol, hz, hs, hc, hd, he],
              by simp [clone_zvol, hz, hs, hc, hd, he]⟩
  · exact ⟨[], [], by simp [clone_zvol, hz], by simp [clone_zvol, hz]⟩

theorem processItem_ledgers_extend (mw : MW) (newId : Nat) (newName : Str)
    (item0 : Device) (snaps clones : List Str) :
    ∃ ds cs, (processItem mw newId newName item0 snaps clones).snaps = snaps ++ ds ∧
      (processItem mw newId newName item0 snaps clones).clones = clones ++ cs := by
  cases hd : item0.dtype with
  | NIC =>
    exact ⟨[], [], by simp [processItem, createDevice, hd],
      by simp [processItem, createDevice, hd]⟩
  | RAW => exact ⟨[], [], by simp [processItem, hd], by simp [processItem, hd]⟩
  | DISPLAY =>
    cases hp : item0.attributes.port with
    | none =>
      exact ⟨[], [], by simp [processItem, createDevice, hd, hp],
        by simp [processItem, createDevice, hd, hp]⟩
    | some v =>
      cases hw : mw.portWizardRes with
      | error e =>
        exact ⟨[], [], by simp [processItem, hd, hp, hw], by simp [processItem, hd, hp, hw]⟩
      | ok pw =>
        exact ⟨[], [], by simp [processItem, createDevice, hd, hp, hw],
          by simp [processItem, createDevice, hd, hp, hw]⟩
  | DISK =>
    cases hpath : item0.attributes.path with
    | none => exact ⟨[], [], by simp [processItem, hd, hpath], by simp [processItem, hd, hpath]⟩
    | some p =>
      obtain ⟨ds, cs, h1, h2⟩ :=
        clone_zvol_ledgers_extend mw newName (zvol_path_to_name p) snaps clones
      cases hres : (clone_zvol mw newName (zvol_path_to_name p) snaps clones).res with
      | error e =>
        exact ⟨ds, cs, by simp [processItem, hd, hpath, hres, h1],
          by simp [processItem, hd, hpath, hres, h2]⟩
      | ok dst =>
        exact ⟨ds, cs, by simp [processItem, createDevice, hd, hpath, hres, h1],
          by simp [processItem, createDevice, hd, hpath, hres, h2]⟩

theorem processDevices_ledgers_extend (mw : MW) (newId : Nat) (newName : Str) :
    ∀ (devices : List Device) (snaps clones : List Str),
      ∃ ds cs, (processDevices mw newId newName devices snaps clones).snaps = snaps ++ ds ∧
        (processDevices mw newId newName devices snaps clones).clones = clones ++ cs := by
  intro devices
  induction devices with
  | nil => intro snaps clones; exact ⟨[], [], by simp [processDevices], by simp [processDevices]⟩
  | cons item rest ih =>
    intro snaps clones
    obtain ⟨ds1, cs1, h1, h2⟩ := processItem_ledgers_extend mw newId newName item snaps clones
    cases hres : (processItem mw newId newName item snaps clones).res with
    | error e =>
      exact ⟨ds1, cs1, by simp [processDevices, hres, h1], by simp [processDevices, hres, h2]⟩
    | ok u =>
      obtain ⟨ds2, cs2, h3, h4⟩ := ih (processItem mw newId newName item snaps clones).snaps
        (processItem mw newId newName item snaps clones).clones
      refine ⟨ds1 ++ ds2, cs1 ++ cs2, ?_, ?_⟩
      · simp only [processDevices, hres]
        rw [h3, h1, List.append_assoc]
      · simp only [processDevices, hres]
        rw [h4, h2, List.append_assoc]

/-- Claim C5: every ledger entry corresponds to a creation call that succeeded
immediately before the append.  For `__clone_zvol` on an existing zvol: a
failed snapshot creation appends nothing to either ledger; a successful
snapshot creation appends exactly the created snapshot's id; a subsequent
clone failure leaves that snapshot entry in place and propagates the clone
error unchanged; a successful clone additionally appends exactly the created
clone's path.  Moreover the device loop only ever extends the ledgers. -/
theorem C5_ledger_reflects_successful_creations (mw : MW) (name zvol : Str)
    (snaps clones : List Str) (hz : zvol ∈ mw.dsIds) :
    (∃ sname, snapshot_name_alloc mw.snapIds zvol name = some sname ∧
      (∀ e, mw.snapCreateRes zvol sname = .error e →
        clone_zvol mw name zvol snaps clones =
          ⟨[.snapCreate zvol sname], snaps, clones, .error e⟩) ∧
      (mw.snapCreateRes zvol sname = .ok () →
        ∃ csuf, clone_dst_alloc mw.dsIds zvol name = some csuf ∧
          (∀ e, mw.snapCloneRes (zvol ++ '@' :: sname) (zvol ++ '_' :: csuf) = .error e →
            clone_zvol mw name zvol snaps clones =
              ⟨[.snapCreate zvol sname,
                  .snapClone (zvol ++ '@' :: sname) (zvol ++ '_' :: csuf)],
                snaps ++ [zvol ++ '@' :: sname], clones, .error e⟩) ∧
          (mw.snapCloneRes (zvol ++ '@' :: sname) (zvol ++ '_' :: csuf) = .ok () →
            clone_zvol mw name zvol snaps clones =
              ⟨[.snapCreate zvol sname,
                  .snapClone (zvol ++ '@' :: sname) (zvol ++ '_' :: csuf)],
                snaps ++ [zvol ++ '@' :: sname], clones ++ [zvol ++ '_' :: csuf],
                .ok (zvol ++ '_' :: csuf)⟩))) ∧
    (∀ (newId : Nat) (newName : Str) (devices : List Device) (s0 c0 : List Str),
      ∃ ds cs, (processDevices mw newId newName devices s0 c0).snaps = s0 ++ ds ∧
        (processDevices mw newId newName devices s0 c0).clones = c0 ++ cs) := by
  constructor
  · obtain ⟨sname, hs, _⟩ := snapshot_name_alloc_spec mw.snapIds zvol name
    refine ⟨sname, hs, ?_, ?_⟩
    · intro e he
      simp [clone_zvol, hz, hs, he]
    · intro hok
      obtain ⟨csuf, hc, _⟩ := clone_dst_alloc_spec mw.dsIds zvol name
      refine ⟨csuf, hc, ?_, ?_⟩
      · intro e he
        simp [clone_zvol, hz, hs, hok, hc, he]
      · intro he
        simp [clone_zvol, hz, hs, hok, hc, he]
  · intro newId newName devices s0 c0
    exact processDevices_ledgers_extend mw newId newName devices s0 c0

/-! ## Rollback trace structure -/

theorem rollbackClones_filter_dsDelete (mw : MW) (l : List Str) :
    (rollbackClones mw l).filter isDsDeleteCall = l.map Call.dsDelete := by
  induction l with
  | nil => rfl
  | cons i rest ih =>
    cases h : mw.dsDeleteRes i with
    | ok u => simp [rollbackClones, h, isDsDeleteCall, ih]
    | error e => simp [rollbackClones, h, isDsDeleteCall, ih]

theorem rollbackClones_filter_snapRemove (mw : MW) (l : List Str) :
    (rollbackClones mw l).filter isSnapRemoveCall = [] := by
  induction l with
  | nil => rfl
  | cons i rest ih =>
    cases h : mw.dsDeleteRes i with
    | ok u => simp [rollbackClones, h, isSnapRemoveCall, ih]
    | error e => simp [rollbackClones, h, isSnapRemoveCall, ih]

theorem rollbackSnaps_filter_snapRemove (mw : MW) (l : List Str) :
    (rollbackSnaps mw l).filter isSnapRemoveCall =
      l.filterMap (fun i => (splitPair i).map (fun dn => Call.snapRemove dn.1 dn.2 true)) := by
  induction l with
  | nil => rfl
  | cons i rest ih =>
    cases hsp : splitPair i with
    | none => simp [rollbackSnaps, hsp, isSnapRemoveCall, ih, List.filterMap_cons]
    | some dn =>
      cases h : mw.snapRemoveRes dn.1 dn.2 true with
      | ok u => simp [rollbackSnaps, hsp, h, isSnapRemoveCall, ih, List.filterMap_cons]
      | error e => simp [rollbackSnaps, hsp, h, isSnapRemoveCall, ih, List.filterMap_cons]

theorem rollbackSnaps_filter_dsDelete (mw : MW) (l : List Str) :
    (rollbackSnaps mw l).filter isDsDeleteCall = [] := by
  induction l with
  | nil => rfl
  | cons i rest ih =>
    cases hsp : splitPair i with
    | none => simp [rollbackSnaps, hsp, isDsDeleteCall, ih]
    | some dn =>
      cases h : mw.snapRemoveRes dn.1 dn.2 true with
      | ok u => simp [rollbackSnaps, hsp, h, isDsDeleteCall, ih]
      | error e => simp [rollbackSnaps, hsp, h, isDsDeleteCall, ih]

theorem rollbackClones_log_mem (mw : MW) (l : List Str) (i : Str) (e : Err)
    (hi : i ∈ l) (he : mw.dsDeleteRes i = .error e) :
    Call.logClone i ∈ rollbackClones mw l := by
  induction l with
  | nil => cases hi
  | cons j rest ih =>
    rcases List.mem_cons.mp hi with rfl | hi2
    · simp [rollbackClones, he]
    · exact List.mem_append_right _ (ih hi2)

theorem rollbackSnaps_log_mem_split_fail (mw : MW) (l : List Str) (i : Str)
    (hi : i ∈ l) (hsp : splitPair i = none) :
    Call.logSnap i ∈ rollbackSnaps mw l := by
  induction l with
  | nil => cases hi
  | cons j rest ih =>
    rcases List.mem_cons.mp hi with rfl | hi2
    · simp [rollbackSnaps, hsp]
    · exact List.mem_append_right _ (ih hi2)

theorem rollbackSnaps_log_mem_remove_fail (mw : MW) (l : List Str) (i : Str)
    (dn : Str × Str) (e : Err) (hi : i ∈ l) (hsp : splitPair i = some dn)
    (he : mw.snapRemoveRes dn.1 dn.2 true = .error e) :
    Call.logSnap i ∈ rollbackSnaps mw l := by
  induction l with
  | nil => cases hi
  | cons j rest ih =>
    rcases List.mem_cons.mp hi with rfl | hi2
    · simp [rollbackSnaps, hsp, he]
    · exact List.mem_append_right _ (ih hi2)

/-- Claim C1 counterexample: a run whose snapshot ledger holds exactly
`z@a@b` (the caller-chosen VM name contains an `@`); the clone fails, the
saga rolls back and re-raises, yet no `zfs.snapshot.remove` call is ever
issued — the compensation fails at the ledger id's tuple unpacking and is
only logged, so not every ledgered snapshot is attempted. -/
theorem C1_counterexample_snapshot_not_attempted :
    (processDevices mwCloneFail 7 ("a@b".data) vmSrc.devices [] []).snaps =
      [("z@a@b".data)] ∧
    (clone mwCloneFail 1 (some ("a@b".data))).2 = .error (.mwErr 7) ∧
    ((clone mwCloneFail 1 (some ("a@b".data))).1).filter isSnapRemoveCall = [] := by
  decide

/-- Claim C1 (amended): if an exception is raised while the saga is
processing devices, rollback runs before the error is surfaced: a
`zfs.dataset.delete` is attempted for EVERY ledgered clone, in reverse order
of creation; then a deferred-delete `zfs.snapshot.remove` is attempted for
every ledgered snapshot whose identifier splits into exactly two parts at
`@`, in reverse order (an entry with an extra `@` fails its compensation at
the tuple unpacking and is only logged); every failing compensation —
deletion, removal, or unpacking — is logged and swallowed so both rollback
loops run to the end of their ledgers, and the error finally raised to the
caller is the original captured exception, never a compensation error. -/
theorem C1_amended_rollback_all_then_reraise_original (mw : MW) (id : Nat)
    (nameArg : Option Str) (vm : VMRec) (alloc : Str) (newId : Nat) (e : Err) (r : Res Unit)
    (hget : mw.getInstance id = .ok vm)
    (halloc : next_clone_name (mw.vmQueryNames vm.name) vm.name = some alloc)
    (hcreate : mw.vmCreateRes = .ok newId)
    (hr : r = processDevices mw newId (overrideName nameArg alloc) vm.devices [] [])
    (herr : r.res = .error e) :
    clone mw id nameArg =
      (Call.vmCreate (overrideName nameArg alloc) mw.freshUuid ::
        r.trace ++ rollback mw r.snaps r.clones, .error e) ∧
    (rollback mw r.snaps r.clones).filter isDsDeleteCall =
      r.clones.reverse.map Call.dsDelete ∧
    (rollback mw r.snaps r.clones).filter isSnapRemoveCall =
      r.snaps.reverse.filterMap
        (fun i => (splitPair i).map (fun dn => Call.snapRemove dn.1 dn.2 true)) ∧
    (∀ i e2, i ∈ r.clones → mw.dsDeleteRes i = .error e2 →
      Call.logClone i ∈ rollback mw r.snaps r.clones) ∧
    (∀ i, i ∈ r.snaps → splitPair i = none →
      Call.logSnap i ∈ rollback mw r.snaps r.clones) ∧
    (∀ i dn e2, i ∈ r.snaps → splitPair i = some dn →
      mw.snapRemoveRes dn.1 dn.2 true = .error e2 →
      Call.logSnap i ∈ rollback mw r.snaps r.clones) := by
  refine ⟨?_, ?_, ?_, ?_, ?_, ?_⟩
  · subst hr
    simp [clone, hget, halloc, hcreate, herr]
  · unfold rollback
    rw [List.filter_append, rollbackClones_filter_dsDelete, rollbackSnaps_filter_dsDelete,
      List.append_nil]
  · unfold rollback
    rw [List.filter_append, rollbackClones_filter_snapRemove, rollbackSnaps_filter_snapRemove,
      List.nil_append]
  · intro i e2 hi he
    exact List.mem_append_left _
      (rollbackClones_log_mem mw _ i e2 (List.mem_reverse.mpr hi) he)
  · intro i hi hsp
    exact List.mem_append_right _
      (rollbackSnaps_log_mem_split_fail mw _ i (List.mem_reverse.mpr hi) hsp)
  · intro i dn e2 hi hsp he
    exact List.mem_append_right _
      (rollbackSnaps_log_mem_remove_fail mw _ i dn e2 (List.mem_reverse.mpr hi) hsp he)

/-- Witness for the amended C1 theorem at the concrete failing run. -/
theorem C1_amended_witness :
    mwCloneFail.getInstance 1 = .ok vmSrc ∧
    next_clone_name (mwCloneFail.vmQueryNames vmSrc.name) vmSrc.name =
      some ("vm_clone0".data) ∧
    mwCloneFail.vmCreateRes = .ok 7 ∧
    (processDevices mwCloneFail 7
      (overrideName (some ("a@b".data)) ("vm_clone0".data)) vmSrc.devices [] []).res =
      .error (.mwErr 7) ∧
    clone mwCloneFail 1 (some ("a@b".data)) =
      (Call.vmCreate (overrideName (some ("a@b".data)) ("vm_clone0".data))
          mwCloneFail.freshUuid ::
        (processDevices mwCloneFail 7
          (overrideName (some ("a@b".data)) ("vm_clone0".data)) vmSrc.devices [] []).trace ++
        rollback mwCloneFail
          (processDevices mwCloneFail 7
            (overrideName (some ("a@b".data)) ("vm_clone0".data)) vmSrc.devices [] []).snaps
          (processDevices mwCloneFail 7
            (overrideName (some ("a@b".data)) ("vm_clone0".data)) vmSrc.devices [] []).clones,
        .error (.mwErr 7)) :=
  ⟨by decide, by decide, by decide, by decide,
    (C1_amended_rollback_all_then_reraise_original mwCloneFail 1 (some ("a@b".data)) vmSrc
      ("vm_clone0".data) 7 (.mwErr 7) _ (by decide) (by decide) (by decide) rfl
      (by decide)).1⟩

/-- Witness for C5 at a concrete oracle whose zvol `z` exists. -/
theorem C5_witness :
    (("z".data : Str) ∈ mwBase.dsIds) ∧
    ((∃ sname, snapshot_name_alloc mwBase.snapIds ("z".data) ("a".data) = some sname ∧
      (∀ e, mwBase.snapCreateRes ("z".data) sname = .error e →
        clone_zvol mwBase ("a".data) ("z".data) [] [] =
          ⟨[.snapCreate ("z".data) sname], [], [], .error e⟩) ∧
      (mwBase.snapCreateRes ("z".data) sname = .ok () →
        ∃ csuf, clone_dst_alloc mwBase.dsIds ("z".data) ("a".data) = some csuf ∧
          (∀ e, mwBase.snapCloneRes ("z".data ++ '@' :: sname)
              ("z".data ++ '_' :: csuf) = .error e →
            clone_zvol mwBase ("a".data) ("z".data) [] [] =
              ⟨[.snapCreate ("z".data) sname,
                  .snapClone ("z".data ++ '@' :: sname) ("z".data ++ '_' :: csuf)],
                [] ++ ["z".data ++ '@' :: sname], [], .error e⟩) ∧
          (mwBase.snapCloneRes ("z".data ++ '@' :: sname)
              ("z".data ++ '_' :: csuf) = .ok () →
            clone_zvol mwBase ("a".data) ("z".data) [] [] =
              ⟨[.snapCreate ("z".data) sname,
                  .snapClone ("z".data ++ '@' :: sname) ("z".data ++ '_' :: csuf)],
                [] ++ ["z".data ++ '@' :: sname], [] ++ ["z".data ++ '_' :: csuf],
                .ok ("z".data ++ '_' :: csuf)⟩))) ∧
    (∀ (newId : Nat) (newName : Str) (devices : List Device) (s0 c0 : List Str),
      ∃ ds cs, (processDevices mwBase newId newName devices s0 c0).snaps = s0 ++ ds ∧
        (processDevices mwBase newId newName devices s0 c0).clones = c0 ++ cs)) :=
  ⟨by decide,
    C5_ledger_reflects_successful_creations mwBase ("a".data) ("z".data) [] [] (by decide)⟩

/-- Claim C4 counterexample: two successful runs that produce clones with
different names (`alpha` and `beta`) return the very same success value
`True` — the public operation's return value is the literal boolean and does
not carry the new entity's name or identifier. -/
theorem C4_counterexample_success_value_carries_no_name :
    (clone mwBase 1 (some ("alpha".data))).2 = .ok true ∧
    (clone mwBase 1 (some ("beta".data))).2 = .ok true ∧
    (clone mwBase 1 (some ("alpha".data))).2 = (clone mwBase 1 (some ("beta".data))).2 := by
  decide

/-- Claim C4 (amended): when every device of the source entity is processed
without error, the public clone operation returns success to its caller as
the literal boolean `True` (after logging the new name); the new entity's
name/identifier is not part of the return value. -/
theorem C4_amended_success_returns_true (mw : MW) (id : Nat) (nameArg : Option Str)
    (vm : VMRec) (alloc : Str) (newId : Nat)
    (hget : mw.getInstance id = .ok vm)
    (halloc : next_clone_name (mw.vmQueryNames vm.name) vm.name = some alloc)
    (hcreate : mw.vmCreateRes = .ok newId)
    (hok : (processDevices mw newId (overrideName nameArg alloc) vm.devices [] []).res =
      .ok ()) :
    clone mw id nameArg =
      (Call.vmCreate (overrideName nameArg alloc) mw.freshUuid ::
        (processDevices mw newId (overrideName nameArg alloc) vm.devices [] []).trace ++
          [Call.logInfo],
        .ok true) := by
  simp [clone, hget, halloc, hcreate, hok]

/-- Witness for the amended C4 theorem at a concrete fully-successful run. -/
theorem C4_amended_witness :
    mwBase.getInstance 1 = .ok vmSrc ∧
    next_clone_name (mwBase.vmQueryNames vmSrc.name) vmSrc.name = some ("vm_clone0".data) ∧
    mwBase.vmCreateRes = .ok 7 ∧
    (processDevices mwBase 7 (overrideName (some ("alpha".data)) ("vm_clone0".data))
      vmSrc.devices [] []).res = .ok () ∧
    clone mwBase 1 (some ("alpha".data)) =
      (Call.vmCreate (overrideName (some ("alpha".data)) ("vm_clone0".data))
          mwBase.freshUuid ::
        (processDevices mwBase 7 (overrideName (some ("alpha".data)) ("vm_clone0".data))
          vmSrc.devices [] []).trace ++ [Call.logInfo],
        .ok true) :=
  ⟨by decide, by decide, by decide, by decide,
    C4_amended_success_returns_true mwBase 1 (some ("alpha".data)) vmSrc
      ("vm_clone0".data) 7 (by decide) (by decide) (by decide) (by decide)⟩

/-- Claim C7 counterexample: for a DISPLAY device whose attribute map has no
`port` key, the saga issues NO `vm.port_wizard` call and creates the device
record with its port attributes untouched — the fresh-port overwrite is
conditional on the `port` key being present, not unconditional. -/
theorem C7_counterexample_display_without_port_key :
    processItem mwBase 7 ("a".data) dispNoPortDev [] [] =
      ⟨[Call.deviceCreate
          { id := none, vm := some 7, dtype := DType.DISPLAY,
            attributes := dispNoPortDev.attributes }], [], [], .ok ()⟩ ∧
    ((processItem mwBase 7 ("a".data) dispNoPortDev [] []).trace).filter
      isPortWizardCall = [] := by
  decide

/-- Claim C7 (amended): for every DISPLAY device whose attributes contain a
`port` key, the saga requests a fresh port pair from the port allocator and
overwrites the device's `port`/`web_port` attributes with the allocated pair
before creating the cloned device record: the step's trace is exactly the
`port_wizard` call followed by the `device.create` call on the rewritten
device. -/
theorem C7_amended_display_port_overwritten_before_create (mw : MW) (newId : Nat)
    (newName : Str) (item0 : Device) (snaps clones : List Str) (p0 : Nat) (pw : Nat × Nat)
    (hd : item0.dtype = DType.DISPLAY)
    (hp : item0.attributes.port = some p0)
    (hw : mw.portWizardRes = .ok pw) :
    processItem mw newId newName item0 snaps clones =
      ⟨[Call.portWizard,
          Call.deviceCreate
            { id := none, vm := some newId, dtype := DType.DISPLAY,
              attributes :=
                { item0.attributes with port := some pw.1, web_port := some pw.2 } }],
        snaps, clones,
        mw.deviceCreateRes
          { id := none, vm := some newId, dtype := DType.DISPLAY,
            attributes :=
              { item0.attributes with port := some pw.1, web_port := some pw.2 } }⟩ := by
  simp [processItem, createDevice, hd, hp, hw]

/-- Witness for the amended C7 theorem at the concrete DISPLAY device. -/
theorem C7_amended_witness :
    dispDev.dtype = DType.DISPLAY ∧
    dispDev.attributes.port = some 5900 ∧
    mwBase.portWizardRes = .ok (5950, 5960) ∧
    processItem mwBase 7 ("a".data) dispDev [] [] =
      ⟨[Call.portWizard,
          Call.deviceCreate
            { id := none, vm := some 7, dtype := DType.DISPLAY,
              attributes :=
                { dispDev.attributes with port := some 5950, web_port := some 5960 } }],
        [], [],
        mwBase.deviceCreateRes
          { id := none, vm := some 7, dtype := DType.DISPLAY,
            attributes :=
              { dispDev.attributes with port := some 5950, web_port := some 5960 } }⟩ :=
  ⟨by decide, by decide, by decide,
    C7_amended_display_port_overwritten_before_create mwBase 7 ("a".data) dispDev [] []
      5900 (5950, 5960) (by decide) (by decide) (by decide)⟩

/-! ## Reconstructing a snapshot id from its successful split -/

theorem splitOn_ne_nil (sep : Char) : ∀ l, splitOn sep l ≠ [] := by
  intro l
  induction l with
  | nil => simp [splitOn]
  | cons c rest ih =>
    simp only [splitOn]
    by_cases h : c = sep
    · simp [h]
    · simp only [h, if_false]
      cases hr : splitOn sep rest with
      | nil => simp
      | cons hh tt => simp

theorem splitOn_singleton (sep : Char) : ∀ l b, splitOn sep l = [b] → l = b := by
  intro l
  induction l with
  | nil =>
    intro b h
    simp only [splitOn] at h
    injection h with h1 _
  | cons c rest ih =>
    intro b h
    simp only [splitOn] at h
    by_cases hc : c = sep
    · rw [if_pos hc] at h
      injection h with _ h2
      exact absurd h2 (splitOn_ne_nil sep rest)
    · rw [if_neg hc] at h
      cases hr : splitOn sep rest with
      | nil => exact absurd hr (splitOn_ne_nil sep rest)
      | cons hh tt =>
        rw [hr] at h
        injection h with h1 h2
        subst h2
        have : rest = hh := ih hh (by rw [hr])
        rw [← h1, this]

theorem splitPair_eq : ∀ (s d n : Str), splitPair s = some (d, n) → s = d ++ '@' :: n := by
  intro s
  induction s with
  | nil =>
    intro d n h
    simp [splitPair, splitOn] at h
  | cons c rest ih =>
    intro d n h
    simp only [splitPair, splitOn] at h
    by_cases hc : c = '@'
    · rw [if_pos hc] at h
      cases hr : splitOn '@' rest with
      | nil => exact absurd hr (splitOn_ne_nil '@' rest)
      | cons hh tt =>
        rw [hr] at h
        cases tt with
        | nil =>
          simp only [Option.some.injEq, Prod.mk.injEq] at h
          obtain ⟨hd, hn⟩ := h
          have hrest : rest = hh := splitOn_singleton '@' rest hh (by rw [hr])
          rw [← hd, hc, hrest, hn]
          rfl
        | cons x xs => simp at h
    · rw [if_neg hc] at h
      cases hr : splitOn '@' rest with
      | nil => exact absurd hr (splitOn_ne_nil '@' rest)
      | cons hh tt =>
        rw [hr] at h
        cases tt with
        | nil => simp at h
        | cons x xs =>
          cases xs with
          | nil =>
            simp only [Option.some.injEq, Prod.mk.injEq] at h
            obtain ⟨hd, hn⟩ := h
            have hrest : rest = hh ++ '@' :: n := by
              apply ih hh n
              simp only [splitPair, hr, hn]
            rw [← hd, hrest]
            rfl
          | cons y ys => simp at h

/-! ## What calls rollback and the forward phase can issue -/

theorem rollbackClones_calls (mw : MW) :
    ∀ (l : List Str) (c : Call), c ∈ rollbackClones mw l →
      (∃ i, c = Call.dsDelete i ∧ i ∈ l) ∨ (∃ i, c = Call.logClone i) := by
  intro l
  induction l with
  | nil => intro c hc; cases hc
  | cons j rest ih =>
    intro c hc
    rw [rollbackClones] at hc
    rcases List.mem_append.mp hc with hc | hc
    · rcases List.mem_cons.mp hc with rfl | hc2
      · exact Or.inl ⟨j, rfl, List.mem_cons_self _ _⟩
      · cases h : mw.dsDeleteRes j with
        | ok u => rw [h] at hc2; cases hc2
        | error e =>
          rw [h] at hc2
          rcases List.mem_singleton.mp hc2 with rfl
          exact Or.inr ⟨j, rfl⟩
    · rcases ih c hc with ⟨i, rfl, hi⟩ | h2
      · exact Or.inl ⟨i, rfl, List.mem_cons_of_mem _ hi⟩
      · exact Or.inr h2

theorem rollbackSnaps_calls (mw : MW) :
    ∀ (l : List Str) (c : Call), c ∈ rollbackSnaps mw l →
      (∃ d n, c = Call.snapRemove d n true ∧ (d ++ '@' :: n) ∈ l) ∨
      (∃ i, c = Call.logSnap i) := by
  intro l
  induction l with
  | nil => intro c hc; cases hc
  | cons j rest ih =>
    intro c hc
    rw [rollbackSnaps] at hc
    rcases List.mem_append.mp hc with hc | hc
    · cases hsp : splitPair j with
      | none =>
        rw [hsp] at hc
        rcases List.mem_singleton.mp hc with rfl
        exact Or.inr ⟨j, rfl⟩
      | some dn =>
        rw [hsp] at hc
        rcases List.mem_cons.mp hc with rfl | hc2
        · refine Or.inl ⟨dn.1, dn.2, rfl, ?_⟩
          rw [← splitPair_eq j dn.1 dn.2 (by rw [hsp])]
          exact List.mem_cons_self _ _
        · cases h : mw.snapRemoveRes dn.1 dn.2 true with
          | ok u => rw [h] at hc2; cases hc2
          | error e =>
            rw [h] at hc2
            rcases List.mem_singleton.mp hc2 with rfl
            exact Or.inr ⟨j, rfl⟩
    · rcases ih c hc with ⟨d, n, rfl, hi⟩ | h2
      · exact Or.inl ⟨d, n, rfl, List.mem_cons_of_mem _ hi⟩
      · exact Or.inr h2

theorem clone_zvol_calls (mw : MW) (name zvol : Str) (snaps clones : List Str) :
    ∀ c ∈ (clone_zvol mw name zvol snaps clones).trace,
      (∃ a b, c = Call.snapCreate a b) ∨ (∃ a b, c = Call.snapClone a b) := by
  intro c hc
  by_cases hz : zvol ∈ mw.dsIds
  · cases hs : snapshot_name_alloc mw.snapIds zvol name with
    | none => simp [clone_zvol, hz, hs] at hc
    | some sname =>
      cases hcr : mw.snapCreateRes zvol sname with
      | error e =>
        simp [clone_zvol, hz, hs, hcr] at hc
        exact Or.inl ⟨zvol, sname, hc⟩
      | ok u =>
        cases hd : clone_dst_alloc mw.dsIds zvol name with
        | none =>
          simp [clone_zvol, hz, hs, hcr, hd] at hc
          exact Or.inl ⟨zvol, sname, hc⟩
        | some csuf =>
          cases he : mw.snapCloneRes (zvol ++ '@' :: sname) (zvol ++ '_' :: csuf) with
          | error e2 =>
            simp [clone_zvol, hz, hs, hcr, hd, he] at hc
            rcases hc with rfl | rfl
            · exact Or.inl ⟨zvol, sname, rfl⟩
            · exact Or.inr ⟨zvol ++ '@' :: sname, zvol ++ '_' :: csuf, rfl⟩
          | ok u2 =>
            simp [clone_zvol, hz, hs, hcr, hd, he] at hc
            rcases hc with rfl | rfl
            · exact Or.inl ⟨zvol, sname, rfl⟩
            · exact Or.inr ⟨zvol ++ '@' :: sname, zvol ++ '_' :: csuf, rfl⟩
  · simp [clone_zvol, hz] at hc

theorem processItem_calls (mw : MW) (newId : Nat) (newName : Str) (item0 : Device)
    (snaps clones : List Str) :
    ∀ c ∈ (processItem mw newId newName item0 snaps clones).trace,
      isVmOrDeviceDelete c = false := by
  intro c hc
  cases hd : item0.dtype with
  | NIC =>
    simp [processItem, createDevice, hd] at hc
    subst hc; rfl
  | RAW =>
    simp [processItem, hd] at hc
    subst hc; rfl
  | DISPLAY =>
    cases hp : item0.attributes.port with
    | none =>
      simp [processItem, createDevice, hd, hp] at hc
      subst hc; rfl
    | some v =>
      cases hw : mw.portWizardRes with
      | error e =>
        simp [processItem, hd, hp, hw] at hc
        subst hc; rfl
      | ok pw =>
        simp [processItem, createDevice, hd, hp, hw] at hc
        rcases hc with rfl | rfl <;> rfl
  | DISK =>
    cases hpath : item0.attributes.path with
    | none => simp [processItem, hd, hpath] at hc
    | some p =>
      cases hres : (clone_zvol mw newName (zvol_path_to_name p) snaps clones).res with
      | error e =>
        simp only [processItem, hd, hpath, hres] at hc
        rcases clone_zvol_calls mw newName (zvol_path_to_name p) snaps clones c hc with
          ⟨a, b, rfl⟩ | ⟨a, b, rfl⟩ <;> rfl
      | ok dst =>
        simp only [processItem, createDevice, hd, hpath, hres] at hc
        rcases List.mem_append.mp hc with hc2 | hc2
        · rcases clone_zvol_calls mw newName (zvol_path_to_name p) snaps clones c hc2 with
            ⟨a, b, rfl⟩ | ⟨a, b, rfl⟩ <;> rfl
        · rcases List.mem_singleton.mp hc2 with rfl
          rfl

theorem processDevices_calls (mw : MW) (newId : Nat) (newName : Str) :
    ∀ (devices : List Device) (snaps clones : List Str),
      ∀ c ∈ (processDevices mw newId newName devices snaps clones).trace,
        isVmOrDeviceDelete c = false := by
  intro devices
  induction devices with
  | nil => intro snaps clones c hc; simp [processDevices] at hc
  | cons item rest ih =>
    intro snaps clones c hc
    cases hres : (processItem mw newId newName item snaps clones).res with
    | error e =>
      simp only [processDevices, hres] at hc
      exact processItem_calls mw newId newName item snaps clones c hc
    | ok u =>
      simp only [processDevices, hres] at hc
      rcases List.mem_append.mp hc with hc2 | hc2
      · exact processItem_calls mw newId newName item snaps clones c hc2
      · exact ih _ _ c hc2

theorem rollback_calls_no_record_delete (mw : MW) (snaps clones : List Str) :
    ∀ c ∈ rollback mw snaps clones, isVmOrDeviceDelete c = false := by
  intro c hc
  rcases List.mem_append.mp hc with hc2 | hc2
  · rcases rollbackClones_calls mw _ c hc2 with ⟨i, rfl, _⟩ | ⟨i, rfl⟩ <;> rfl
  · rcases rollbackSnaps_calls mw _ c hc2 with ⟨d, n, rfl, _⟩ | ⟨i, rfl⟩ <;> rfl

theorem clone_calls_no_record_delete (mw : MW) (id : Nat) (nameArg : Option Str) :
    ∀ c ∈ (clone mw id nameArg).1, isVmOrDeviceDelete c = false := by
  intro c hc
  cases hget : mw.getInstance id with
  | error e => simp [clone, hget] at hc
  | ok vm =>
    cases halloc : next_clone_name (mw.vmQueryNames vm.name) vm.name with
    | none => simp [clone, hget, halloc] at hc
    | some alloc =>
      cases hcr : mw.vmCreateRes with
      | error e =>
        simp [clone, hget, halloc, hcr, rollback, rollbackClones, rollbackSnaps] at hc
        subst hc; rfl
      | ok newId =>
        cases hres : (processDevices mw newId (overrideName nameArg alloc)
            vm.devices [] []).res with
        | error e =>
          simp only [clone, hget, halloc, hcr, hres] at hc
          rcases List.mem_cons.mp hc with rfl | hc2
          · rfl
          · rcases List.mem_append.mp hc2 with hc3 | hc3
            · exact processDevices_calls mw newId (overrideName nameArg alloc) _ _ _ c hc3
            · exact rollback_calls_no_record_delete mw _ _ c hc3
        | ok u =>
          simp only [clone, hget, halloc, hcr, hres] at hc
          rcases List.mem_cons.mp hc with rfl | hc2
          · rfl
          · rcases List.mem_append.mp hc2 with hc3 | hc3
            · exact processDevices_calls mw newId (overrideName nameArg alloc) _ _ _ c hc3
            · rcases List.mem_singleton.mp hc3 with rfl
              rfl

/-- Claim C9: rollback deletes only the storage resources recorded in the two
ledgers — every call it issues is a dataset deletion of a ledgered clone, a
deferred snapshot removal of a ledgered snapshot, or a warning log — and no
call anywhere in the public clone operation (forward phase or rollback) ever
deletes the already-created duplicate Entity record or an already-created
device record. -/
theorem C9_rollback_frame :
    (∀ (mw : MW) (snaps clones : List Str) (c : Call), c ∈ rollback mw snaps clones →
      (∃ i, c = Call.dsDelete i ∧ i ∈ clones) ∨
      (∃ d n, c = Call.snapRemove d n true ∧ (d ++ '@' :: n) ∈ snaps) ∨
      (∃ i, c = Call.logClone i) ∨ (∃ i, c = Call.logSnap i)) ∧
    (∀ (mw : MW) (id : Nat) (nameArg : Option Str) (c : Call),
      c ∈ (clone mw id nameArg).1 → isVmOrDeviceDelete c = false) := by
  constructor
  · intro mw snaps clones c hc
    rcases List.mem_append.mp hc with hc2 | hc2
    · rcases rollbackClones_calls mw _ c hc2 with ⟨i, rfl, hi⟩ | ⟨i, rfl⟩
      · exact Or.inl ⟨i, rfl, List.mem_reverse.mp hi⟩
      · exact Or.inr (Or.inr (Or.inl ⟨i, rfl⟩))
    · rcases rollbackSnaps_calls mw _ c hc2 with ⟨d, n, rfl, hi⟩ | ⟨i, rfl⟩
      · exact Or.inr (Or.inl ⟨d, n, rfl, List.mem_reverse.mp hi⟩)
      · exact Or.inr (Or.inr (Or.inr ⟨i, rfl⟩))
  · exact clone_calls_no_record_delete

/-- Witness for C9 at a concrete rollback trace and a concrete clone run. -/
theorem C9_witness :
    (Call.dsDelete ("x".data) ∈ rollback mwBase [("z@a".data)] [("x".data)]) ∧
    ((∃ i, Call.dsDelete ("x".data) = Call.dsDelete i ∧ i ∈ [("x".data)]) ∨
      (∃ d n, Call.dsDelete ("x".data) = Call.snapRemove d n true ∧
        (d ++ '@' :: n) ∈ [("z@a".data)]) ∨
      (∃ i, Call.dsDelete ("x".data) = Call.logClone i) ∨
      (∃ i, Call.dsDelete ("x".data) = Call.logSnap i)) ∧
    (Call.vmCreate ("alpha".data) ("u2".data) ∈ (clone mwBase 1 (some ("alpha".data))).1) ∧
    isVmOrDeviceDelete (Call.vmCreate ("alpha".data) ("u2".data)) = false :=
  ⟨by decide,
    C9_rollback_frame.1 mwBase [("z@a".data)] [("x".data)] (Call.dsDelete ("x".data))
      (by decide),
    by decide,
    C9_rollback_frame.2 mwBase 1 (some ("alpha".data))
      (Call.vmCreate ("alpha".data) ("u2".data)) (by decide)⟩

/-- Claim C8: if the pre-delete receive-abort command exited 0 and the
destroy command fails with an engine message ending in `dataset does not
exist`, dataset deletion returns success (the bare `return`, i.e. `none`)
instead of raising. -/
theorem C8_delete_race_returns_success (mw : DelMW) (id : Str) (force recursive : Bool)
    (stderr : Str)
    (hrc : mw.recvRc id = 0)
    (hdes : mw.destroyRes force recursive id = .error stderr)
    (hsfx : ("dataset does not exist".data).isSuffixOf (pyStrip stderr) = true) :
    do_delete mw id force recursive = .ok none := by
  simp [do_delete, hrc, hdes, hsfx]

/-- Witness for C8 at a concrete oracle reproducing the race. -/
theorem C8_witness :
    delmwRace.recvRc ("p/d".data) = 0 ∧
    delmwRace.destroyRes false false ("p/d".data) =
      .error ("cannot destroy 'p/d': dataset does not exist\n".data) ∧
    ("dataset does not exist".data).isSuffixOf
      (pyStrip ("cannot destroy 'p/d': dataset does not exist\n".data)) = true ∧
    do_delete delmwRace ("p/d".data) false false = .ok none :=
  ⟨by decide, by decide, by decide,
    C8_delete_race_returns_success delmwRace ("p/d".data) false false
      ("cannot destroy 'p/d': dataset does not exist\n".data)
      (by decide) (by decide) (by decide)⟩

/-- Claim C10: property updates are atomic with respect to validation — if
any change of the batch is invalid (inheriting an absent property, supplying
neither `parsed` nor `value`, or naming a new property without a colon), the
operation raises the accumulated validation errors with an empty call trace,
so `update_properties` is never invoked and no change of the batch (valid
ones included) is applied. -/
theorem C10_validation_is_atomic (mw : DSMW) (props : List (Str × Change)) (ds : ZfsObj)
    (hbad : ∃ p ∈ props, entryErrors ds.props p.1 p.2 ≠ []) :
    update_zfs_object_props mw props ds =
      ([], .error (.validationErrs
        (props.flatMap (fun p => entryErrors ds.props p.1 p.2)))) := by
  obtain ⟨p, hp, hne⟩ := hbad
  have hv : props.flatMap (fun q => entryErrors ds.props q.1 q.2) ≠ [] := by
    intro h
    exact hne (List.flatMap_eq_nil_iff.mp h p hp)
  simp [update_zfs_object_props, hv]

/-- Witness for C10: a batch holding a valid `quota` change and an invalid
change (no `parsed`/`value`, new property without a colon) is rejected whole
with no call to the underlying update. -/
theorem C10_witness :
    (∃ p ∈ [(("quota".data : Str), chgParsed), (("x".data : Str), chgEmpty)],
      entryErrors ["quota".data] p.1 p.2 ≠ []) ∧
    update_zfs_object_props dsmwQC
        [(("quota".data : Str), chgParsed), (("x".data : Str), chgEmpty)] ⟨["quota".data]⟩ =
      ([], .error (.validationErrs
        ([(("quota".data : Str), chgParsed), (("x".data : Str), chgEmpty)].flatMap
          (fun p => entryErrors ["quota".data] p.1 p.2)))) :=
  ⟨by decide,
    C10_validation_is_atomic dsmwQC
      [(("quota".data : Str), chgParsed), (("x".data : Str), chgEmpty)]
      ⟨["quota".data]⟩ (by decide)⟩

/-! ## Closed form of the quota/refquota reordering -/

theorem moveKeyToEnd_of_absent (k : Str) (l : List (Str × Change))
    (h : l.find? (fun p => decide (p.1 = k)) = none) :
    moveKeyToEnd k l = l ∧ l.filter (fun p => decide (p.1 = k)) = [] ∧
      l.filter (fun p => decide (¬ p.1 = k)) = l := by
  have habs : ∀ p ∈ l, ¬ (p.1 = k) := by
    intro p hp
    have := List.find?_eq_none.mp h p hp
    simpa using this
  refine ⟨by simp [moveKeyToEnd, h], ?_, ?_⟩
  · exact List.filter_eq_nil_iff.mpr (fun p hp => by simpa using habs p hp)
  · exact List.filter_eq_self.mpr (fun p hp => by simpa using habs p hp)

theorem filter_key_eq_of_nodup (l : List (Str × Change)) (e : Str × Change)
    (hn : (l.map Prod.fst).Nodup) (he : e ∈ l) :
    l.filter (fun p => decide (p.1 = e.1)) = [e] := by
  induction l with
  | nil => cases he
  | cons h t ih =>
    rw [List.map_cons, List.nodup_cons] at hn
    obtain ⟨hh, ht⟩ := hn
    rcases List.mem_cons.mp he with rfl | he2
    · have hnil : t.filter (fun p => decide (p.1 = e.1)) = [] := by
        apply List.filter_eq_nil_iff.mpr
        intro p hp
        simp only [decide_eq_true_eq]
        intro hpe
        exact hh (hpe ▸ List.mem_map_of_mem Prod.fst hp)
      simp [List.filter_cons, hnil]
    · have hne : ¬ (h.1 = e.1) := by
        intro hhe
        exact hh (hhe ▸ List.mem_map_of_mem Prod.fst he2)
      simp only [List.filter_cons, decide_eq_true_eq, hne, if_false]
      exact ih ht he2

theorem moveKeyToEnd_closed (k : Str) (l : List (Str × Change))
    (hn : (l.map Prod.fst).Nodup) :
    moveKeyToEnd k l =
      l.filter (fun p => decide (¬ p.1 = k)) ++ l.filter (fun p => decide (p.1 = k)) := by
  cases h : l.find? (fun p => decide (p.1 = k)) with
  | none =>
    obtain ⟨h1, h2, h3⟩ := moveKeyToEnd_of_absent k l h
    rw [h1, h2, h3, List.append_nil]
  | some e =>
    have hek : e.1 = k := by
      have := List.find?_some h
      simpa using this
    have hmem : e ∈ l := List.mem_of_find?_eq_some h
    have hf : l.filter (fun p => decide (p.1 = k)) = [e] := by
      rw [← hek]
      exact filter_key_eq_of_nodup l e hn hmem
    simp [moveKeyToEnd, h, hf]

theorem moveKeyToEnd_keys_nodup (k : Str) (l : List (Str × Change))
    (hn : (l.map Prod.fst).Nodup) :
    ((moveKeyToEnd k l).map Prod.fst).Nodup := by
  rw [moveKeyToEnd_closed k l hn, List.map_append, List.nodup_append]
  refine ⟨hn.sublist ((List.filter_sublist l).map Prod.fst), 
    hn.sublist ((List.filter_sublist l).map Prod.fst), ?_⟩
  intro a ha hb
  obtain ⟨p, hp, rfl⟩ := List.mem_map.mp ha
  obtain ⟨q, hq, hqa⟩ := List.mem_map.mp hb
  have h1 : ¬ p.1 = k := by
    have := (List.mem_filter.mp hp).2
    simpa using this
  have h2 : q.1 = k := by
    have := (List.mem_filter.mp hq).2
    simpa using this
  exact h1 (by rw [← hqa]; exact h2)

theorem mem_moveKeyToEnd (k : Str) (l : List (Str × Change)) (p : Str × Change)
    (hp : p ∈ moveKeyToEnd k l) : p ∈ l := by
  unfold moveKeyToEnd at hp
  cases h : l.find? (fun q => decide (q.1 = k)) with
  | none => rw [h] at hp; exact hp
  | some e =>
    rw [h] at hp
    rcases List.mem_append.mp hp with h2 | h2
    · exact List.mem_of_mem_filter h2
    · rcases List.mem_singleton.mp h2 with rfl
      exact List.mem_of_find?_eq_some h

theorem reorderProps_closed (l : List (Str × Change)) (hn : (l.map Prod.fst).Nodup) :
    reorderProps l =
      l.filter (fun p => decide (¬ p.1 = "quota".data ∧ ¬ p.1 = "refquota".data)) ++
      l.filter (fun p => decide (p.1 = "quota".data)) ++
      l.filter (fun p => decide (p.1 = "refquota".data)) := by
  unfold reorderProps
  rw [moveKeyToEnd_closed _ _ (moveKeyToEnd_keys_nodup _ l hn),
    moveKeyToEnd_closed _ l hn, List.filter_append, List.filter_append]
  have hboth : (l.filter (fun p => decide (¬ p.1 = "quota".data))).filter
      (fun p => decide (¬ p.1 = "refquota".data)) =
      l.filter (fun p => decide (¬ p.1 = "quota".data ∧ ¬ p.1 = "refquota".data)) := by
    rw [List.filter_filter]
    apply List.filter_congr
    intro x _
    by_cases h1 : x.1 = "quota".data <;> by_cases h2 : x.1 = "refquota".data <;>
      simp [h1, h2]
  have hq_keep : (l.filter (fun p => decide (p.1 = "quota".data))).filter
      (fun p => decide (¬ p.1 = "refquota".data)) =
      l.filter (fun p => decide (p.1 = "quota".data)) := by
    apply List.filter_eq_self.mpr
    intro a ha
    have h2 := (List.mem_filter.mp ha).2
    simp only [decide_eq_true_eq] at h2 ⊢
    rw [h2]
    decide
  have hrq_keep : (l.filter (fun p => decide (¬ p.1 = "quota".data))).filter
      (fun p => decide (p.1 = "refquota".data)) =
      l.filter (fun p => decide (p.1 = "refquota".data)) := by
    rw [List.filter_filter]
    apply List.filter_congr
    intro x _
    by_cases hx : x.1 = "refquota".data
    · have : ¬ x.1 = "quota".data := by rw [hx]; decide
      simp [hx, this]
    · simp [hx]
  have hdrop : (l.filter (fun p => decide (p.1 = "quota".data))).filter
      (fun p => decide (p.1 = "refquota".data)) = [] := by
    apply List.filter_eq_nil_iff.mpr
    intro a ha
    have h2 := (List.mem_filter.mp ha).2
    simp only [decide_eq_true_eq] at h2 ⊢
    rw [h2]
    decide
  rw [hboth, hq_keep, hrq_keep, hdrop, List.append_nil]

theorem update_zfs_object_props_valid_trace (mw : DSMW)
    (properties : List (Str × Change)) (zfs_object : ZfsObj)
    (hv : properties.flatMap (fun p => entryErrors zfs_object.props p.1 p.2) = []) :
    (update_zfs_object_props mw properties zfs_object).1 =
      [PCall.updateProps properties] := by
  unfold update_zfs_object_props
  simp only [hv]
  split
  · rename_i hcontra
    exact absurd rfl hcontra
  · split <;> rfl

/-- Claim C6: for every property-change batch accepted by validation, the
batch handed to the underlying store by the dataset update operation lists
the capacity-limiting properties (`quota`, then `refquota`) strictly after
all other properties of the batch, regardless of their position in the
input. -/
theorem C6_capacity_properties_applied_last (mw : DSMW) (id : Str)
    (props : List (Str × Change)) (ds : ZfsObj)
    (hget : mw.getDataset id = .ok ds)
    (hkeys : (props.map Prod.fst).Nodup)
    (hvalid : ∀ p ∈ props, entryErrors ds.props p.1 p.2 = []) :
    (do_update mw id (some props)).1 =
      [PCall.updateProps
        (props.filter (fun p => decide (¬ p.1 = "quota".data ∧ ¬ p.1 = "refquota".data)) ++
          props.filter (fun p => decide (p.1 = "quota".data)) ++
          props.filter (fun p => decide (p.1 = "refquota".data)))] := by
  have hverr : (reorderProps props).flatMap
      (fun p => entryErrors ds.props p.1 p.2) = [] := by
    apply List.flatMap_eq_nil_iff.mpr
    intro p hp
    exact hvalid p (mem_moveKeyToEnd _ _ _ (mem_moveKeyToEnd _ _ _ hp))
  have htr : (do_update mw id (some props)).1 =
      [PCall.updateProps (reorderProps props)] := by
    unfold do_update
    rw [hget]
    exact update_zfs_object_props_valid_trace mw (reorderProps props) ds hverr
  rw [htr, reorderProps_closed props hkeys]

/-- Witness for C6: on the concrete batch `{quota, compression}` (in that
input order) the update call hands `compression` to the store before
`quota`. -/
theorem C6_witness :
    dsmwQC.getDataset ("p/d".data) = .ok ⟨["quota".data, "compression".data]⟩ ∧
    ((propsQC.map Prod.fst).Nodup) ∧
    (∀ p ∈ propsQC,
      entryErrors (ZfsObj.mk ["quota".data, "compression".data]).props p.1 p.2 = []) ∧
    (do_update dsmwQC ("p/d".data) (some propsQC)).1 =
      [PCall.updateProps
        (propsQC.filter
            (fun p => decide (¬ p.1 = "quota".data ∧ ¬ p.1 = "refquota".data)) ++
          propsQC.filter (fun p => decide (p.1 = "quota".data)) ++
          propsQC.filter (fun p => decide (p.1 = "refquota".data)))] ∧
    (do_update dsmwQC ("p/d".data) (some propsQC)).1 =
      [PCall.updateProps [("compression".data, chgParsed), ("quota".data, chgParsed)]] :=
  ⟨by decide, by decide, by decide,
    C6_capacity_properties_applied_last dsmwQC ("p/d".data) propsQC
      ⟨["quota".data, "compression".data]⟩ (by decide) (by decide) (by decide),
    by decide⟩
